import Mathlib

/-!
Shallow embedding of the mdsync tool (src/mdsync.py) in Lean 4, together
with proofs settling the frozen claims about its specification.

Strings are modelled as Lean `String`s; most computation happens on the
underlying `List Char` (`String.data`), which mirrors Python's sequential
string processing.  Python library primitives used by the source
(`str.strip`, `str.split`, `str.find`, `re`-based scanners, …) are
embedded as executable Lean functions whose behaviour on the inputs that
matter is the documented CPython behaviour (ASCII character classes).
-/

namespace Mdsync

/-! ## Python string primitives -/

/-- Characters treated as whitespace by Python's `str.strip()` and `\s`
(ASCII range, which covers every input appearing in this development). -/
def pyIsSpace (c : Char) : Bool :=
  c = ' ' || c = '\t' || c = '\n' || c = '\r' || c = '\x0b' || c = '\x0c'

/-- Remove leading and trailing whitespace of a character list. -/
def trimChars (l : List Char) : List Char :=
  ((l.dropWhile pyIsSpace).reverse.dropWhile pyIsSpace).reverse

/-- Python `str.strip()`. -/
def pyStrip (s : String) : String :=
  String.mk (trimChars s.data)

/-- Python `str.lstrip('\n')`. -/
def pyLstripNL (s : String) : String :=
  String.mk (s.data.dropWhile (fun c => c = '\n'))

/-- Python `str.strip('-')`. -/
def pyStripHyphen (s : String) : String :=
  String.mk (((s.data.dropWhile (fun c => c = '-')).reverse.dropWhile
    (fun c => c = '-')).reverse)

/-- Auxiliary splitter: Python `str.split('\n')` over a character list,
accumulating the current chunk in reverse. -/
def splitNLAux : List Char → List Char → List (List Char)
  | [], acc => [acc.reverse]
  | c :: rest, acc =>
    if c = '\n' then acc.reverse :: splitNLAux rest []
    else splitNLAux rest (c :: acc)

/-- Python `str.split('\n')` (always returns at least one chunk). -/
def pySplitNL (s : String) : List String :=
  (splitNLAux s.data []).map String.mk

/-- Auxiliary for `'\n'.join` over character lists. -/
def joinNLChars : List (List Char) → List Char
  | [] => []
  | [l] => l
  | l :: rest => l ++ '\n' :: joinNLChars rest

/-- Python `'\n'.join(lines)`. -/
def joinNL (lines : List String) : String :=
  String.mk (joinNLChars (lines.map String.data))

/-- Does `pat` occur as a contiguous substring of `l`?  (Python `in`.) -/
def containsSubChars (pat : List Char) : List Char → Bool
  | [] => pat.isEmpty
  | c :: rest => pat.isPrefixOf (c :: rest) || containsSubChars pat rest

/-- Python `sub in s` for strings. -/
def pyContains (s sub : String) : Bool :=
  containsSubChars sub.data s.data

/-- Python `s.lower()` (ASCII case mapping). -/
def pyLower (s : String) : String :=
  String.mk (s.data.map Char.toLower)

/-- Python `s.isdigit()` restricted to ASCII digits. -/
def pyIsDigitStr (s : String) : Bool :=
  !s.data.isEmpty && s.data.all Char.isDigit

/-- Python `s.isalpha()` for a single character (ASCII). -/
def pyIsAlpha (c : Char) : Bool := c.isAlpha

/-- Auxiliary for `pyFind`: index of the first occurrence of `pat` in `l`,
counting from `i`. -/
def findSubAux (pat : List Char) : List Char → Nat → Option Nat
  | [], i => if pat.isEmpty then some i else none
  | c :: rest, i =>
    if pat.isPrefixOf (c :: rest) then some i else findSubAux pat rest (i + 1)

/-- Python `s.find(sub, start)`: first index `≥ start` where `sub` occurs,
or `none` (Python's `-1`). -/
def pyFindFrom (s sub : String) (start : Nat) : Option Nat :=
  (findSubAux sub.data (s.data.drop start) 0).map (· + start)

/-- Python `s.split(sep, 1)` for a single-character separator: at most two
chunks. -/
def pySplitOnce (sep : Char) (s : String) : List String :=
  match findSubAux [sep] s.data 0 with
  | none => [s]
  | some i => [String.mk (s.data.take i), String.mk (s.data.drop (i + 1))]

/-! ## Destination classifier (src/mdsync.py:116-166) -/

/-- Transcription of `is_google_doc` (src/mdsync.py:116): a Google Docs URL
or a bare id (no slash, no dot, longer than 20 characters). -/
def is_google_doc (path : String) : Bool :=
  if path = "" then false
  else
    pyContains path "docs.google.com" ||
      (!path.data.contains '/' && !path.data.contains '.' && path.length > 20)

/-- Transcription of `is_confluence_page` (src/mdsync.py:124): a Confluence
URL, a `confluence:` destination, or a numeric page id shorter than 20. -/
def is_confluence_page (path : String) : Bool :=
  if path = "" then false
  else
    pyContains path "atlassian.net/wiki" ||
      "confluence:".data.isPrefixOf path.data ||
      (pyIsDigitStr path && path.length < 20)

/-- Result record of `parse_confluence_destination` (src/mdsync.py:133);
the Python dict keys become optional fields (`type` is rendered `dtype`). -/
structure ConfluenceDest where
  dtype : Option String
  space : Option String
  page_id : Option String
  page_title : Option String
  url : Option String
deriving Repr, DecidableEq

/-- Scanner for the regex `/spaces/([^/]+)` used on Confluence URLs: at each
position try to match the literal `/spaces/` followed by a nonempty run of
non-slash characters; return the captured run of the leftmost match. -/
def scanSpaces : List Char → Option (List Char)
  | [] => none
  | c :: rest =>
    if "/spaces/".data.isPrefixOf (c :: rest) then
      let after := (c :: rest).drop 8
      let run := after.takeWhile (fun ch => ch ≠ '/')
      if run.isEmpty then scanSpaces rest else some run
    else scanSpaces rest

/-- Scanner for the regex `/pages/(\d+)`: the digit run following the
leftmost `/pages/` that is followed by at least one digit. -/
def scanPages : List Char → Option (List Char)
  | [] => none
  | c :: rest =>
    if "/pages/".data.isPrefixOf (c :: rest) then
      let after := (c :: rest).drop 7
      let run := after.takeWhile Char.isDigit
      if run.isEmpty then scanPages rest else some run
    else scanPages rest

/-- Python `s.replace('+', ' ')`. -/
def plusToSpace (s : String) : String :=
  String.mk (s.data.map (fun c => if c = '+' then ' ' else c))

/-- Transcription of `parse_confluence_destination` (src/mdsync.py:133):
three forms — `confluence:SPACE/PAGE_ID_or_Title`, a full Confluence URL,
or a bare numeric page id. -/
def parse_confluence_destination (dest : String) : ConfluenceDest :=
  if "confluence:".data.isPrefixOf dest.data then
    let parts := pySplitOnce '/' (String.mk (dest.data.drop 11))
    { dtype := some "confluence"
      space := parts.head?
      page_id :=
        match parts.get? 1 with
        | some p => if pyIsDigitStr p then some p else none
        | none => none
      page_title :=
        match parts.get? 1 with
        | some p => if pyIsDigitStr p then none else some (plusToSpace p)
        | none => none
      url := none }
  else if pyContains dest "atlassian.net/wiki" then
    { dtype := some "confluence"
      space := (scanSpaces dest.data).map String.mk
      page_id := (scanPages dest.data).map String.mk
      page_title := none
      url := some dest }
  else if pyIsDigitStr dest then
    { dtype := some "confluence", space := none, page_id := some dest
      page_title := none, url := none }
  else
    { dtype := none, space := none, page_id := none, page_title := none
      url := none }

/-- Tagged union of destination kinds (spec §3, "Destination Reference"). -/
inductive DestKind where
  | googleDoc
  | confluencePage
  | markdownFile
deriving Repr, DecidableEq

/-- Classification of a CLI argument string, with the precedence used by
the dispatcher (src/mdsync.py:4030-4035): Google Doc first, then
Confluence, otherwise a local Markdown path. -/
def classify (s : String) : DestKind :=
  if is_google_doc s then .googleDoc
  else if is_confluence_page s then .confluencePage
  else .markdownFile

/-! ## Batch id generation (src/mdsync.py:2793-2832) -/

/-- State machine for `collapseRuns`: the flag records whether the
previous character was part of a run being collapsed. -/
def collapseRunsAux (p : Char → Bool) (rep : Char) : Bool → List Char → List Char
  | _, [] => []
  | inRun, c :: rest =>
    if p c then
      if inRun then collapseRunsAux p rep true rest
      else rep :: collapseRunsAux p rep true rest
    else c :: collapseRunsAux p rep false rest

/-- Replace every maximal run of characters satisfying `p` by the single
character `rep` (the effect of `re.sub(p+, rep, s)`). -/
def collapseRuns (p : Char → Bool) (rep : Char) (l : List Char) : List Char :=
  collapseRunsAux p rep false l

/-- Auxiliary for Python `str.split()` with no argument: split on
whitespace runs, discarding empty chunks; the accumulator holds the
current word reversed. -/
def splitWSAux : List Char → List Char → List (List Char)
  | [], acc => if acc.isEmpty then [] else [acc.reverse]
  | c :: rest, acc =>
    if pyIsSpace c then
      if acc.isEmpty then splitWSAux rest []
      else acc.reverse :: splitWSAux rest []
    else splitWSAux rest (c :: acc)

/-- Python `title.split()`. -/
def pySplitWS (s : String) : List String :=
  (splitWSAux s.data []).map String.mk

/-- Transcription of `generate_batch_id` (src/mdsync.py:2793): lowercase,
drop characters other than alphanumerics/whitespace/hyphen, collapse
whitespace and hyphen runs to single hyphens, strip hyphens; fall back to
initials (or a truncated lowercased title) when shorter than 3; prefix
`batch-` when not starting with a letter; default `batch`. -/
def generate_batch_id (title : String) : String :=
  let c1 := (pyLower title).data.filter
    (fun c => c.isAlphanum || pyIsSpace c || c = '-')
  let c2 := collapseRuns pyIsSpace '-' (trimChars c1)
  let c3 := collapseRuns (fun c => c = '-') '-' c2
  let clean1 := pyStripHyphen (String.mk c3)
  let clean2 :=
    if clean1.length < 3 then
      let words := pySplitWS title
      if words.length ≥ 2 then
        String.mk ((words.take 3).map (fun w => (w.data.headD ' ').toLower))
      else String.mk ((pyLower title).data.take 8)
    else clean1
  let clean3 :=
    if clean2 ≠ "" && !pyIsAlpha (clean2.data.headD ' ') then
      "batch-" ++ clean2
    else clean2
  if clean3 = "" then "batch" else clean3

/-! ## Frontmatter stripping (src/mdsync.py:1692-1705) -/

/-- Transcription of `strip_frontmatter_for_remote_sync` (src/mdsync.py:1692):
when the content starts with `---` and its first line is exactly `---`,
drop everything through the first later line whose stripped form is `---`
and return the remainder stripped of surrounding whitespace; otherwise
return the content unchanged. -/
def strip_frontmatter_for_remote_sync (markdown_content : String) : String :=
  if "---".data.isPrefixOf markdown_content.data then
    if (pySplitNL markdown_content).length > 1 &&
        ((pySplitNL markdown_content).head?.getD "") == "---" then
      match ((pySplitNL markdown_content).drop 1).findIdx?
          (fun line => pyStrip line == "---") with
      | some j => pyStrip (joinNL ((pySplitNL markdown_content).drop (j + 2)))
      | none => markdown_content
    else markdown_content
  else markdown_content

/-! ## Generic `re.sub` scanner

The regex substitutions of the source are embedded as left-to-right
scanners: at each position a matcher either returns a replacement and the
remainder after the match (the match is nonempty for every pattern used
here), or the scanner advances one character.  A fuel argument equal to
the input length makes the recursion structural and keeps every
definition kernel-reducible. -/

/-- One scanning pass driven by `fuel`; `tryM l` returns the replacement
text and the remainder after a match starting at the head of `l`. -/
def subScan (tryM : List Char → Option (List Char × List Char)) :
    Nat → List Char → List Char
  | 0, l => l
  | fuel + 1, l =>
    match tryM l with
    | some (rep, rest) => rep ++ subScan tryM fuel rest
    | none =>
      match l with
      | [] => []
      | c :: cs => c :: subScan tryM fuel cs

/-- Run a substitution scanner over a whole character list. -/
def runSub (tryM : List Char → Option (List Char × List Char))
    (l : List Char) : List Char :=
  subScan tryM l.length l

/-- Matcher for a literal pattern, replacing it by `rep`. -/
def tryLit (pat rep : List Char) (l : List Char) :
    Option (List Char × List Char) :=
  if !pat.isEmpty && pat.isPrefixOf l then some (rep, l.drop pat.length)
  else none

/-! ## Confluence anchor generation (src/mdsync.py:348-373) -/

/-- Matcher for `\*\*([^*]+)\*\*` (Markdown bold), replaced by the group. -/
def tryBold (l : List Char) : Option (List Char × List Char) :=
  if "**".data.isPrefixOf l then
    let body := (l.drop 2).takeWhile (fun c => c ≠ '*')
    if !body.isEmpty && "**".data.isPrefixOf (l.drop (2 + body.length)) then
      some (body, l.drop (2 + body.length + 2))
    else none
  else none

/-- Matcher for `\*([^*]+)\*` (Markdown italics), replaced by the group. -/
def tryItalic (l : List Char) : Option (List Char × List Char) :=
  match l with
  | '*' :: rest =>
    let body := rest.takeWhile (fun c => c ≠ '*')
    if !body.isEmpty && (rest.drop body.length).head? = some '*' then
      some (body, rest.drop (body.length + 1))
    else none
  | _ => none

/-- Matcher for `\[([^\]]+)\]\([^\)]+\)` (Markdown link), replaced by the
link text. -/
def tryMdLink (l : List Char) : Option (List Char × List Char) :=
  match l with
  | '[' :: rest =>
    let text := rest.takeWhile (fun c => c ≠ ']')
    if !text.isEmpty && (rest.drop text.length).head? = some ']' then
      let after := rest.drop (text.length + 1)
      match after with
      | '(' :: rest2 =>
        let url := rest2.takeWhile (fun c => c ≠ ')')
        if !url.isEmpty && (rest2.drop url.length).head? = some ')' then
          some (text, rest2.drop (url.length + 1))
        else none
      | _ => none
    else none
  | _ => none

/-- Characters left unencoded by `urllib.parse.quote(s, safe='-')`: the
unreserved set (letters, digits, `_`, `.`, `-`, `~`). -/
def isQuoteSafe (c : Char) : Bool :=
  c.isAlphanum || c = '_' || c = '.' || c = '-' || c = '~'

/-- UTF-8 bytes of a code point, as natural numbers below 256. -/
def utf8Bytes (n : Nat) : List Nat :=
  if n < 0x80 then [n]
  else if n < 0x800 then [0xC0 + n / 0x40, 0x80 + n % 0x40]
  else if n < 0x10000 then
    [0xE0 + n / 0x1000, 0x80 + (n / 0x40) % 0x40, 0x80 + n % 0x40]
  else
    [0xF0 + n / 0x40000, 0x80 + (n / 0x1000) % 0x40,
      0x80 + (n / 0x40) % 0x40, 0x80 + n % 0x40]

/-- Uppercase hexadecimal digit for a value below 16. -/
def hexDigit (n : Nat) : Char :=
  Char.ofNat (if n < 10 then 48 + n else 55 + n)

/-- `urllib.parse.quote(s, safe='-')`: keep unreserved characters, percent
encode every UTF-8 byte of the rest with uppercase hex. -/
def urlQuoteSafeHyphen (l : List Char) : List Char :=
  l.flatMap (fun c =>
    if isQuoteSafe c then [c]
    else (utf8Bytes c.toNat).flatMap
      (fun b => ['%', hexDigit (b / 16), hexDigit (b % 16)]))

/-- Transcription of `generate_confluence_anchor` (src/mdsync.py:348):
strip, remove bold/italic/link Markdown syntax, unescape `\[`/`\]`,
collapse whitespace runs to single hyphens preserving case, and percent
encode with hyphen kept safe. -/
def generate_confluence_anchor (heading_text : String) : String :=
  let a0 := (pyStrip heading_text).data
  let a1 := runSub tryBold a0
  let a2 := runSub tryItalic a1
  let a3 := runSub tryMdLink a2
  let a4 := runSub (tryLit "\\[".data "[".data) a3
  let a5 := runSub (tryLit "\\]".data "]".data) a4
  let a6 := collapseRuns pyIsSpace '-' a5
  String.mk (urlQuoteSafeHyphen a6)

/-- Removal of a trailing `{#anchor}` annotation, the effect of
`re.sub(r'\s*\{#[^}]+\}\s*$', '', s)` in `fix_heading_anchor`
(src/mdsync.py:387): the final non-whitespace text must end with
`\x7d`, with a matching `\x7b#` and a nonempty body free of `\x7d`. -/
def stripTrailingAnchorAnnot (s : String) : String :=
  let r := s.data.reverse
  let r1 := r.dropWhile pyIsSpace
  if r1.head? = some '\x7d' then
    let r2 := (r1.drop 1).takeWhile (fun c => c ≠ '\x7b')
    let content := r2.reverse
    if ((r1.drop 1).drop r2.length).head? = some '\x7b' &&
        !r2.contains '\x7d' && content.head? = some '#' &&
        decide (2 ≤ content.length) then
      String.mk ((((r1.drop 1).drop (r2.length + 1)).dropWhile
        pyIsSpace).reverse)
    else s
  else s

/-- The heading text cleaned as in `fix_heading_anchor` (src/mdsync.py:387):
the trailing `{#anchor}` annotation removed and the result stripped. -/
def cleanHeadingText (heading_text : String) : String :=
  pyStrip (stripTrailingAnchorAnnot heading_text)

/-- The anchor attached to a heading by `fix_heading_anchor`: the anchor
generated from the cleaned heading text. -/
def anchorForHeading (heading_text : String) : String :=
  generate_confluence_anchor (cleanHeadingText heading_text)

/-! ## Markdown to Confluence storage (src/mdsync.py:323-547) -/

/-- Split a character list at the first occurrence of `pat`, returning the
text before the match and the remainder after it (the lazy capture of a
`(.*?)pat` regex tail). -/
def splitAtFirst (pat : List Char) : List Char → Option (List Char × List Char)
  | [] => if pat.isEmpty then some ([], []) else none
  | c :: rest =>
    if pat.isPrefixOf (c :: rest) then some ([], (c :: rest).drop pat.length)
    else
      match splitAtFirst pat rest with
      | some (a, b) => some (c :: a, b)
      | none => none

/-- A pattern with no nontrivial border: no proper nonempty suffix-start
`pat.drop k` is also a prefix of `pat`.  Such patterns cannot straddle the
boundary of an occurrence, which keeps first-occurrence reasoning simple. -/
def borderFree (pat : List Char) : Bool :=
  (List.range pat.length).all
    (fun k => decide (k = 0) || !((pat.drop k).isPrefixOf pat))

/-- Python dict assignment `d[k] = v` on an association list: overwrite
the value at the first occurrence of `k`, otherwise append. -/
def dictSet {β : Type} : List (String × β) → String → β → List (String × β)
  | [], k, v => [(k, v)]
  | (k0, v0) :: rest, k, v =>
    if k0 = k then (k0, v) :: rest else (k0, v0) :: dictSet rest k v

/-- Python dict lookup `d[k]` / `k in d` on an association list. -/
def dictGet? {β : Type} : List (String × β) → String → Option β
  | [], _ => none
  | (k0, v0) :: rest, k => if k0 = k then some v0 else dictGet? rest k

/-- Modelled from the external Python-Markdown library (called with the
`tables`, `fenced_code`, `codehilite`, `nl2br` and `sane_lists` extensions
at src/mdsync.py:332), restricted to the constructs this development
exercises: blank-line-separated blocks rendered as paragraphs, with
`>`-prefixed blocks rendered as a `<blockquote>` wrapping the paragraph,
and the `nl2br` extension turning in-paragraph newlines into `<br />`. -/
def splitBlocksAux : List String → List String → List (List String)
  | [], cur => if cur.isEmpty then [] else [cur.reverse]
  | l :: rest, cur =>
    if pyStrip l = "" then
      if cur.isEmpty then splitBlocksAux rest []
      else cur.reverse :: splitBlocksAux rest []
    else splitBlocksAux rest (l :: cur)

/-- Strip the blockquote marker of a Markdown quote line. -/
def stripBQMarker (l : String) : String :=
  if "> ".data.isPrefixOf l.data then String.mk (l.data.drop 2)
  else if ">".data.isPrefixOf l.data then String.mk (l.data.drop 1)
  else l

/-- Inline Markdown link rendering `[text](url)` to an HTML anchor, part
of the modelled Markdown-to-HTML pass. -/
def tryInlineLink (l : List Char) : Option (List Char × List Char) :=
  match l with
  | '[' :: rest =>
    let text := rest.takeWhile (fun c => c ≠ ']')
    if !text.isEmpty && "](".data.isPrefixOf (rest.drop text.length) then
      let rest2 := rest.drop (text.length + 2)
      let url := rest2.takeWhile (fun c => c ≠ ')')
      if !url.isEmpty && (rest2.drop url.length).head? = some ')' then
        some ("<a href=\"".data ++ url ++ "\">".data ++ text ++ "</a>".data,
          rest2.drop (url.length + 1))
      else none
    else none
  | _ => none

/-- Render inline content of the modelled Markdown-to-HTML pass. -/
def renderInline (s : String) : String :=
  String.mk (runSub tryInlineLink s.data)

/-- Render one block (see `splitBlocksAux` for the scope of the model). -/
def renderBlock (ls : List String) : String :=
  if ">".data.isPrefixOf (ls.head?.getD "").data then
    "<blockquote>\n<p>" ++
      String.intercalate "<br />\n" (ls.map (fun l => renderInline (stripBQMarker l))) ++
      "</p>\n</blockquote>"
  else "<p>" ++ String.intercalate "<br />\n" (ls.map renderInline) ++ "</p>"

/-- The modelled `markdown.markdown` call (see `splitBlocksAux`). -/
def markdown_markdown (md : String) : String :=
  String.intercalate "\n"
    ((splitBlocksAux (pySplitNL md) []).map renderBlock)

/-- Heading digit test: `[1-6]`. -/
def isHeadingDigit (d : Char) : Bool :=
  '1' ≤ d && d ≤ '6'

/-- Matcher for `<h([1-6])(?:\s+id="([^"]*)")?>(.*?)</h\1>` together with
the `fix_heading_anchor` replacement (src/mdsync.py:376-400): the heading
text is cleaned of a trailing `\x7b#anchor\x7d` annotation and re-emitted
with the Confluence-compatible anchor id. -/
def tryHeading (l : List Char) : Option (List Char × List Char) :=
  match l with
  | '<' :: 'h' :: d :: rest =>
    if isHeadingDigit d then
      let wsRun := rest.takeWhile pyIsSpace
      let attrRest :=
        if !wsRun.isEmpty && "id=\"".data.isPrefixOf (rest.drop wsRun.length) then
          let r2 := rest.drop (wsRun.length + 4)
          let idv := r2.takeWhile (fun c => c ≠ '"')
          if (r2.drop idv.length).head? = some '"' then
            some (r2.drop (idv.length + 1))
          else none
        else none
      match attrRest.getD rest with
      | '>' :: body0 =>
        match splitAtFirst ("</h".data ++ [d] ++ ">".data) body0 with
        | some (content, after) =>
          if content.contains '\n' then none
          else
            let clean := cleanHeadingText (String.mk content)
            let anchor := generate_confluence_anchor clean
            some (("<h".data ++ [d] ++ " id=\"".data ++ anchor.data ++
              "\">".data ++ clean.data ++ "</h".data ++ [d] ++ ">".data), after)
        | none => none
      | _ => none
    else none
  | _ => none

/-- Parse one Markdown line against the heading pattern
`^#{1,6}\s+(.+?)(?:\s+\x7b#([^}]+)\x7d)?$` (src/mdsync.py:405), returning
the raw heading text group and the optional explicit anchor group. -/
def parseHeadingLine (l : List Char) : Option (List Char × Option (List Char)) :=
  let hashes := l.takeWhile (fun c => c = '#')
  if hashes.isEmpty || decide (6 < hashes.length) then none
  else
    let afterHash := l.drop hashes.length
    let ws := afterHash.takeWhile pyIsSpace
    if ws.isEmpty then none
    else
      let restText := afterHash.drop ws.length
      if restText.isEmpty then none
      else
        let r := restText.reverse
        if r.head? = some '\x7d' then
          let r2 := (r.drop 1).takeWhile (fun c => c ≠ '\x7b')
          let content := r2.reverse
          let beforeBrace := (r.drop 1).drop (r2.length + 1)
          let wsBefore := beforeBrace.takeWhile pyIsSpace
          if ((r.drop 1).drop r2.length).head? = some '\x7b' &&
              !r2.contains '\x7d' && content.head? = some '#' &&
              decide (2 ≤ content.length) && !wsBefore.isEmpty &&
              !(beforeBrace.drop wsBefore.length).isEmpty then
            some ((beforeBrace.drop wsBefore.length).reverse,
              some (content.drop 1))
          else some (restText, none)
        else some (restText, none)

/-- Matcher for `\\\[([^\]]+)\\\]` replaced by `[\1]` (the escaped-bracket
unescape used on heading text while building the anchor map,
src/mdsync.py:418). -/
def tryEscBrackets (l : List Char) : Option (List Char × List Char) :=
  if "\\[".data.isPrefixOf l then
    let m := (l.drop 2).takeWhile (fun c => c ≠ ']')
    if decide (2 ≤ m.length) && m.getLast? = some '\\' &&
        (l.drop (2 + m.length)).head? = some ']' then
      some ('[' :: (m.dropLast ++ [']']), l.drop (2 + m.length + 1))
    else none
  else none

/-- The cleaned heading used as an anchor-map key (src/mdsync.py:414-418):
trailing annotation removed, Markdown links removed, escaped brackets
unescaped. -/
def cleanHeadingForMap (heading_text : String) : String :=
  let c0 := pyStrip (stripTrailingAnchorAnnot heading_text)
  let c1 := runSub tryMdLink c0.data
  let c2 := runSub tryEscBrackets c1
  String.mk c2

/-- Build the map from anchor names and lowercased heading texts to the
generated Confluence anchors (src/mdsync.py:402-429). -/
def buildAnchorMap (markdown_content : String) : List (String × String) :=
  (pySplitNL markdown_content).foldl
    (fun amap line =>
      match parseHeadingLine line.data with
      | none => amap
      | some (g1, g2) =>
        let heading_text := pyStrip (String.mk g1)
        let clean_heading := cleanHeadingForMap heading_text
        let confluence_anchor := generate_confluence_anchor clean_heading
        let amap1 :=
          match g2 with
          | some ex => dictSet amap (String.mk ex) confluence_anchor
          | none => amap
        let amap2 := dictSet amap1 (pyLower clean_heading) confluence_anchor
        dictSet amap2 (pyLower heading_text) confluence_anchor)
    []

/-- Matcher for `<a href="#([^"]+)">(.*?)</a>` with the `fix_anchor_link`
replacement (src/mdsync.py:432-452): resolve the anchor name through the
anchor map, falling back to generating an anchor from the link text. -/
def tryAnchorLink (amap : List (String × String)) (l : List Char) :
    Option (List Char × List Char) :=
  if "<a href=\"#".data.isPrefixOf l then
    let after := l.drop 10
    let name := after.takeWhile (fun c => c ≠ '"')
    if name.isEmpty then none
    else if "\">".data.isPrefixOf (after.drop name.length) then
      match splitAtFirst "</a>".data (after.drop (name.length + 2)) with
      | some (text, rest) =>
        if text.contains '\n' then none
        else
          let anch :=
            match dictGet? amap (String.mk name) with
            | some a => a
            | none => generate_confluence_anchor (String.mk text)
          some (("<a href=\"#".data ++ anch.data ++ "\">".data ++ text ++
            "</a>".data), rest)
      | none => none
    else none
  else none

/-- Matcher for the codehilite wrapper pattern (src/mdsync.py:455-460),
replaced by a plain `<pre><code>` pair. -/
def tryCodehilite (l : List Char) : Option (List Char × List Char) :=
  if "<div class=\"codehilite\"><pre><span></span><code".data.isPrefixOf l then
    let after := l.drop 46
    let attrs := after.takeWhile (fun c => c ≠ '>')
    match (after.drop attrs.length).head? with
    | some _ =>
      match splitAtFirst "</code></pre></div>".data (after.drop (attrs.length + 1)) with
      | some (content, rest) =>
        some ("<pre><code>".data ++ content ++ "</code></pre>".data, rest)
      | none => none
    | none => none
  else none

/-- Matcher for `<span class="[^"]*">([^<]*)</span>` replaced by the
content (src/mdsync.py:463-467). -/
def trySpan (l : List Char) : Option (List Char × List Char) :=
  if "<span class=\"".data.isPrefixOf l then
    let after := l.drop 13
    let cls := after.takeWhile (fun c => c ≠ '"')
    if "\">".data.isPrefixOf (after.drop cls.length) then
      let body := after.drop (cls.length + 2)
      let content := body.takeWhile (fun c => c ≠ '<')
      if "</span>".data.isPrefixOf (body.drop content.length) then
        some (content, body.drop (content.length + 7))
      else none
    else none
  else none

/-- Python `re.sub(r'^<p>|</p>$', '', content)` used inside the macro
replacement functions: remove a leading `<p>` and a trailing `</p>`. -/
def stripPTags (s : String) : String :=
  let s1 := if "<p>".data.isPrefixOf s.data then s.data.drop 3 else s.data
  let s2 :=
    if "</p>".data.isPrefixOf (s1.drop (s1.length - 4)) && decide (4 ≤ s1.length)
    then s1.take (s1.length - 4)
    else s1
  String.mk s2

/-! ## Admonition macros and blockquotes (src/mdsync.py:469-521) -/

/-- Match data of the `:::type [title]` admonition pattern
`:::(\w+)(?:\s+([^\n]+))?\n(.*?)\n:::` (DOTALL, src/mdsync.py:498-503):
the type word, the optional title group, the body group, and the rest of
the input after the match.  The title attempt backtracks over the length
of the `\s+` run from longest to shortest, as the regex engine does. -/
def tryTitleLoop (afterWord : List Char) : Nat → Option (List Char × List Char × List Char)
  | 0 => none
  | k + 1 =>
    let rest := afterWord.drop (k + 1)
    let t := rest.takeWhile (fun c => c ≠ '\n')
    let attempt :=
      if !t.isEmpty && (rest.drop t.length).head? = some '\n' then
        match splitAtFirst "\n:::".data (rest.drop (t.length + 1)) with
        | some (cont, rest2) => some (t, cont, rest2)
        | none => none
      else none
    match attempt with
    | some r => some r
    | none => tryTitleLoop afterWord k

/-- Word characters of the regex `\w` (ASCII). -/
def isWordChar (c : Char) : Bool :=
  c.isAlphanum || c = '_'

/-- The match part of the admonition scanner; the replacement is built
separately so the match is independent of the generated macro id. -/
def admonitionMatch (l : List Char) :
    Option (List Char × Option (List Char) × List Char × List Char) :=
  if ":::".data.isPrefixOf l then
    let word := (l.drop 3).takeWhile isWordChar
    if word.isEmpty then none
    else
      let afterWord := (l.drop 3).drop word.length
      let wsRun := afterWord.takeWhile pyIsSpace
      match tryTitleLoop afterWord wsRun.length with
      | some (t, cont, rest2) => some (word, some t, cont, rest2)
      | none =>
        match afterWord with
        | '\n' :: rest =>
          match splitAtFirst "\n:::".data rest with
          | some (cont, rest2) => some (word, none, cont, rest2)
          | none => none
        | _ => none
  else none

/-- The replacement of `convert_special_macro` (src/mdsync.py:470-495):
a structured macro with the lowercased type, an optional title parameter
(`success` special-cased to an `info` macro with a check-mark title), and
the stripped body as the rich-text body. -/
def admonitionRep (uuid : String) (word : List Char) (titleOpt : Option (List Char))
    (cont : List Char) : List Char :=
  let macroType0 := pyLower (String.mk word)
  let title0 := String.mk (titleOpt.getD [])
  let content := stripPTags (pyStrip (String.mk cont))
  let macroType := if macroType0 = "success" then "info" else macroType0
  let title :=
    if macroType0 = "success" then
      if title0 = "" then "✅ Success"
      else if !"✅".data.isPrefixOf title0.data then "✅ " ++ title0
      else title0
    else title0
  let macroParams :=
    if title ≠ "" then
      "  <ac:parameter ac:name=\"title\">" ++ title ++ "</ac:parameter>\n"
    else ""
  ("<ac:structured-macro ac:name=\"" ++ macroType ++
    "\" ac:schema-version=\"1\" ac:macro-id=\"" ++ uuid ++ "\">\n" ++
    macroParams ++ "  <ac:rich-text-body>\n    <p>" ++ content ++
    "</p>\n  </ac:rich-text-body>\n</ac:structured-macro>").data

/-- The admonition scanner: match plus replacement (the generated
`uuid.uuid4()` macro id is made an explicit parameter). -/
def tryAdmonition (uuid : String) (l : List Char) :
    Option (List Char × List Char) :=
  match admonitionMatch l with
  | some (word, titleOpt, cont, rest) =>
    some (admonitionRep uuid word titleOpt cont, rest)
  | none => none

/-- The replacement of `convert_blockquote_to_note` (src/mdsync.py:506-514):
a `note` macro whose rich-text body wraps the stripped content. -/
def noteMacroOf (content : List Char) : List Char :=
  ("<ac:structured-macro ac:name=\"note\">\n  <ac:rich-text-body>\n    <p>" ++
    stripPTags (pyStrip (String.mk content)) ++
    "</p>\n  </ac:rich-text-body>\n</ac:structured-macro>").data

/-- Matcher for `<blockquote>(.*?)</blockquote>` (DOTALL) with the
`convert_blockquote_to_note` replacement (src/mdsync.py:516-521). -/
def tryBlockquote (l : List Char) : Option (List Char × List Char) :=
  if "<blockquote>".data.isPrefixOf l then
    match splitAtFirst "</blockquote>".data (l.drop 12) with
    | some (content, rest) => some (noteMacroOf content, rest)
    | none => none
  else none

/-- Transcription of `convert_link` (src/mdsync.py:524-539): a `#` target
stays a same-page anchor href, an `http(s)://` or `mailto:` target stays a
plain external link, and any other target becomes a structured
internal-link element carrying the target as a page-title reference. -/
def convert_link (href text : String) : String :=
  if "#".data.isPrefixOf href.data then
    "<a href=\"#" ++ String.mk (href.data.drop 1) ++ "\">" ++ text ++ "</a>"
  else if "http://".data.isPrefixOf href.data ||
      "https://".data.isPrefixOf href.data ||
      "mailto:".data.isPrefixOf href.data then
    "<a href=\"" ++ href ++ "\">" ++ text ++ "</a>"
  else
    "<ac:link><ri:page ri:content-title=\"" ++ href ++ "\"/><ac:link-body>" ++
      text ++ "</ac:link-body></ac:link>"

/-- Matcher for `<a href="([^"]+)">(.*?)</a>` with the `convert_link`
replacement (src/mdsync.py:541-545). -/
def tryConvertLink (l : List Char) : Option (List Char × List Char) :=
  if "<a href=\"".data.isPrefixOf l then
    let after := l.drop 9
    let href := after.takeWhile (fun c => c ≠ '"')
    if href.isEmpty then none
    else if "\">".data.isPrefixOf (after.drop href.length) then
      match splitAtFirst "</a>".data (after.drop (href.length + 2)) with
      | some (text, rest) =>
        if text.contains '\n' then none
        else some ((convert_link (String.mk href) (String.mk text)).data, rest)
      | none => none
    else none
  else none

/-- Transcription of `markdown_to_confluence_storage` (src/mdsync.py:323):
the modelled Markdown-to-HTML pass followed by the source's substitution
passes in order — heading anchors, in-document anchor links, codehilite
unwrapping, span removal, admonition macros, blockquote-to-note macros,
and link conversion.  The macro id generated by `uuid.uuid4()` inside the
admonition pass is an explicit parameter. -/
def markdown_to_confluence_storage (uuid : String) (markdown_content : String) : String :=
  let html := (markdown_markdown markdown_content).data
  let amap := buildAnchorMap markdown_content
  let s1 := runSub tryHeading html
  let s2 := runSub (tryAnchorLink amap) s1
  let s3 := runSub tryCodehilite s2
  let s4 := runSub trySpan s3
  let s5 := runSub (tryAdmonition uuid) s4
  let s6 := runSub tryBlockquote s5
  let s7 := runSub tryConvertLink s6
  String.mk s7

/-! ## Google Doc section lookup (src/mdsync.py:3491-3559)

The Google Docs API document object is modelled structurally: a body
content list of elements, each with start/end indices and an optional
paragraph carrying an optional named style and a list of elements that
may or may not be text runs (missing dictionary keys become `none` /
defaults, matching the `.get` calls of the source). -/

/-- One element of a paragraph's `elements` list. -/
inductive ParaElem where
  | textRun (content : String)
  | nonText
deriving Repr, DecidableEq

/-- A paragraph of the document body. -/
structure GParagraph where
  namedStyleType : Option String
  elements : List ParaElem
deriving Repr, DecidableEq

/-- One structural element of the document body. -/
structure GElement where
  startIndex : Nat
  endIndex : Nat
  paragraph : Option GParagraph
deriving Repr, DecidableEq

/-- A Google Doc document object (its `body.content` list). -/
structure GDoc where
  content : List GElement
deriving Repr, DecidableEq

/-- Concatenated text-run content of a paragraph (the inner loop of the
source's text extraction). -/
def paraText (p : GParagraph) : String :=
  p.elements.foldr
    (fun e acc =>
      match e with
      | ParaElem.textRun s => s ++ acc
      | ParaElem.nonText => acc) ""

/-- Text of an element: its paragraph's text runs, or empty. -/
def elemText (e : GElement) : String :=
  match e.paragraph with
  | some p => paraText p
  | none => ""

/-- Is the element a `HEADING_1` paragraph? -/
def isH1 (e : GElement) : Bool :=
  match e.paragraph with
  | some p => decide (p.namedStyleType = some "HEADING_1")
  | none => false

/-- First loop of `find_heading_section_in_gdoc` (src/mdsync.py:3509-3523):
scan for the first `HEADING_1` paragraph whose text contains the heading
title case-insensitively, returning its end index. -/
def findH1Loop (heading_title : String) : List GElement → Option Nat
  | [] => none
  | e :: rest =>
    match e.paragraph with
    | some p =>
      if p.namedStyleType = some "HEADING_1" then
        if pyContains (pyLower (paraText p)) (pyLower heading_title) then
          some e.endIndex
        else findH1Loop heading_title rest
      else findH1Loop heading_title rest
    | none => findH1Loop heading_title rest

/-- Second loop (src/mdsync.py:3529-3537): the start index of the first
`HEADING_1` element lying strictly after the section start. -/
def findEndLoop (heading_start : Nat) : List GElement → Option Nat
  | [] => none
  | e :: rest =>
    if e.startIndex > heading_start && isH1 e then some e.startIndex
    else findEndLoop heading_start rest

/-- Third loop (src/mdsync.py:3544-3554): concatenate the text runs of the
paragraph elements lying wholly inside the index range. -/
def collectLoop (heading_start heading_end : Nat) : List GElement → String
  | [] => ""
  | e :: rest =>
    (if decide (heading_start ≤ e.startIndex) &&
        decide (e.endIndex ≤ heading_end) then
      match e.paragraph with
      | some p => paraText p
      | none => ""
    else "") ++ collectLoop heading_start heading_end rest

/-- Transcription of `find_heading_section_in_gdoc` (src/mdsync.py:3491):
locate the matching H1, locate the section end (next strictly-later H1 or
the last element's end index), collect the contained paragraph text and
strip it; empty string when no H1 matches. -/
def find_heading_section_in_gdoc (doc : GDoc) (heading_title : String) : String :=
  match findH1Loop heading_title doc.content with
  | none => ""
  | some heading_start =>
    let heading_end :=
      match findEndLoop heading_start doc.content with
      | some i => i
      | none => ((doc.content.getLast?).map (fun e => e.endIndex)).getD 0
    pyStrip (collectLoop heading_start heading_end doc.content)

/-- Concatenated element texts, used by the specification-side section
definitions. -/
def concatElemTexts (l : List GElement) : String :=
  l.foldr (fun e acc => elemText e ++ acc) ""

/-- Stated from the claim's words: the section is exactly the content
lying between the matched H1 (matched case-insensitively) and the next
top-level H1 in document order, or the document end; empty when no H1
matches. -/
def specSectionClaim (doc : GDoc) (title : String) : String :=
  match doc.content.findIdx? (fun e => isH1 e &&
      pyContains (pyLower (elemText e)) (pyLower title)) with
  | none => ""
  | some i =>
    concatElemTexts ((doc.content.drop (i + 1)).takeWhile (fun e => !isH1 e))

/-- Stated from the amended claim: the section runs from the matched H1's
end index to the first H1 element whose start index strictly exceeds it
(else the last element's end index), collecting the paragraph elements
wholly inside that index range, with the result trimmed of surrounding
whitespace. -/
def specSectionAmended (doc : GDoc) (title : String) : String :=
  match doc.content.find? (fun e => isH1 e &&
      pyContains (pyLower (elemText e)) (pyLower title)) with
  | none => ""
  | some eMatch =>
    let hstart := eMatch.endIndex
    let hend :=
      match doc.content.find?
          (fun e => decide (hstart < e.startIndex) && isH1 e) with
      | some e2 => e2.startIndex
      | none => ((doc.content.getLast?).map (fun e => e.endIndex)).getD 0
    pyStrip (concatElemTexts (doc.content.filter
      (fun e => decide (hstart ≤ e.startIndex) &&
        decide (e.endIndex ≤ hend))))

/-- Per-file status printed by `diff_batch_against_gdoc`
(src/mdsync.py:3104-3124): an empty located section reports the file as
missing its section, otherwise the stripped contents are compared. -/
def batchFileReport (content_for_gdoc heading_section : String) : String :=
  if heading_section ≠ "" then
    if pyStrip content_for_gdoc ≠ pyStrip heading_section then "DIFF" else "OK"
  else "MISSING"

/-! ## Frontmatter store (src/mdsync.py:712-781)

The external `python-frontmatter`/`PyYAML` pair is modelled as a concrete
serialization of a flat metadata mapping: values are null, strings, or
lists of strings (the fragment of YAML the tool stores), keys and string
values are serialized double-quoted with `\\`, `\"` and `\n` escaped, and
lists in flow style.  The model captures the library's contract used by
the source: `loads` strips the text, splits a leading `---`-delimited
block, parses it (raising — modelled as `none` — on malformed lines;
returning the whole text as content when the block is unterminated), and
strips the returned content; `dumps` re-serializes the mapping above the
content and strips the result; key order is preserved (insertion order,
one line per key), and dict assignment overwrites in place or appends. -/

/-- YAML values stored by the tool: null, strings, lists of strings. -/
inductive YVal where
  | ynull
  | ystr (s : String)
  | ylist (l : List String)
deriving Repr, DecidableEq

/-- Escaping of a quoted scalar: backslash, double quote and newline. -/
def escChars : List Char → List Char
  | [] => []
  | c :: cs =>
    if c = '\\' then '\\' :: '\\' :: escChars cs
    else if c = '"' then '\\' :: '"' :: escChars cs
    else if c = '\n' then '\\' :: 'n' :: escChars cs
    else c :: escChars cs

/-- A double-quoted escaped scalar. -/
def quoteChars (s : String) : List Char :=
  '"' :: (escChars s.data ++ ['"'])

/-- Parse a quoted scalar after its opening quote: the unescaped content
and the remainder after the closing quote. -/
def parseQuoted : List Char → Option (List Char × List Char)
  | [] => none
  | '\\' :: c :: cs =>
    match parseQuoted cs with
    | some (a, r) => some ((if c = 'n' then '\n' else c) :: a, r)
    | none => none
  | '"' :: cs => some ([], cs)
  | c :: cs =>
    match parseQuoted cs with
    | some (a, r) => some (c :: a, r)
    | none => none

/-- Flow-style serialization of a list of strings (without brackets). -/
def dumpListItems : List String → List Char
  | [] => []
  | [s] => quoteChars s
  | s :: rest => quoteChars s ++ (',' :: ' ' :: dumpListItems rest)

/-- State machine parsing the flow-style list after its opening bracket:
state 0 expects an item or the closing bracket, state 1 is inside a
quoted item; the accumulators hold the current item (reversed) and the
finished items (reversed). -/
def parseListAux : List Char → Nat → List Char → List String → Option (List String)
  | [], _, _, _ => none
  | ']' :: rest, 0, _, items => if rest.isEmpty then some items.reverse else none
  | '"' :: rest, 0, cur, items => parseListAux rest 1 cur items
  | '\\' :: c :: rest, 1, cur, items =>
    parseListAux rest 1 ((if c = 'n' then '\n' else c) :: cur) items
  | '"' :: rest, 1, cur, items =>
    parseListAux rest 3 [] (String.mk cur.reverse :: items)
  | c :: rest, 1, cur, items => parseListAux rest 1 (c :: cur) items
  | ']' :: rest, 3, _, items => if rest.isEmpty then some items.reverse else none
  | ',' :: ' ' :: rest, 3, cur, items => parseListAux rest 0 cur items
  | _, _, _, _ => none

/-- Serialization of a metadata value. -/
def dumpVal : YVal → List Char
  | .ynull => "null".data
  | .ystr s => quoteChars s
  | .ylist l => '[' :: (dumpListItems l ++ [']'])

/-- Parse a metadata value. -/
def parseVal : List Char → Option YVal
  | [] => none
  | '"' :: rest =>
    match parseQuoted rest with
    | some (s, r) => if r.isEmpty then some (.ystr (String.mk s)) else none
    | none => none
  | '[' :: rest => (parseListAux rest 0 [] []).map .ylist
  | c :: rest => if (c :: rest) = "null".data then some .ynull else none

/-- One serialized metadata line (without the trailing newline). -/
def dumpLineChars (k : String) (v : YVal) : List Char :=
  quoteChars k ++ (':' :: ' ' :: dumpVal v)

/-- Parse one metadata line. -/
def parseLine (l : List Char) : Option (String × YVal) :=
  match l with
  | '"' :: rest =>
    match parseQuoted rest with
    | some (k, r) =>
      match r with
      | ':' :: ' ' :: vchars => (parseVal vchars).map (fun v => (String.mk k, v))
      | _ => none
    | none => none
  | _ => none

/-- Serialized metadata block: one line per key, insertion order. -/
def dumpMeta (m : List (String × YVal)) : List Char :=
  m.foldr (fun kv acc => dumpLineChars kv.1 kv.2 ++ '\n' :: acc) []

/-- Parse the metadata lines sequentially into a mapping (dict insertion
semantics); any unparseable line fails the whole block. -/
def parseMetaLines : List (List Char) → List (String × YVal) →
    Option (List (String × YVal))
  | [], acc => some acc
  | line :: rest, acc =>
    match parseLine line with
    | some (k, v) => parseMetaLines rest (dictSet acc k v)
    | none => none

/-- Modelled `frontmatter.loads` (see the section comment): `none` models
the YAML parse error the library raises on a malformed block. -/
def fmLoads? (c : String) : Option (List (String × YVal) × String) :=
  let t := pyStrip c
  if "---\n".data.isPrefixOf t.data then
    match ((pySplitNL t).drop 1).findIdx? (fun line => line == "---") with
    | none => some ([], t)
    | some j =>
      match parseMetaLines ((((pySplitNL t).drop 1).take j).map String.data) [] with
      | some m => some (m, pyStrip (joinNL ((pySplitNL t).drop (j + 2))))
      | none => none
  else some ([], t)

/-- Modelled `frontmatter.dumps`: the serialized block above the content,
with the overall result stripped. -/
def fmDumps (m : List (String × YVal)) (content : String) : String :=
  pyStrip ("---\n" ++ String.mk (dumpMeta m) ++ "---\n\n" ++ content)

/-- Python dict `update`-style merge used by the source: assign every
patch key in order. -/
def mergeMeta (m p : List (String × YVal)) : List (String × YVal) :=
  p.foldl (fun acc kv => dictSet acc kv.1 kv.2) m

/-- Transcription of `update_frontmatter_metadata` (src/mdsync.py:744):
the library path parses, merges the patch and re-serializes; when the
parse raises, the manual fallback path synthesizes a new block holding
only the patch, keeping the text after the first `---` found from index 3
(or the whole content when there is no frontmatter or no later `---`). -/
def update_frontmatter_metadata (content : String)
    (metadata : List (String × YVal)) : String :=
  match fmLoads? content with
  | some (m, body) => fmDumps (mergeMeta m metadata) body
  | none =>
    if !("---".data.isPrefixOf content.data) then
      "---\n" ++ String.mk (dumpMeta metadata) ++ "---\n\n" ++ content
    else
      match pyFindFrom content "---" 3 with
      | none => "---\n" ++ String.mk (dumpMeta metadata) ++ "---\n\n" ++ content
      | some end_marker =>
        "---\n" ++ String.mk (dumpMeta metadata) ++ "---\n\n" ++
          pyLstripNL (String.mk (content.data.drop (end_marker + 3)))

/-- The record assembled by `extract_frontmatter_metadata`
(src/mdsync.py:712-741): each field is the dict lookup of the parsed
metadata, `labels` defaulting to the empty list. -/
structure FrontmatterRecord where
  title : Option YVal
  labels : YVal
  parent : Option YVal
  gdoc_url : Option YVal
  confluence_url : Option YVal
  batch : Option YVal
  gdoc_created : Option YVal
  gdoc_modified : Option YVal
  confluence_created : Option YVal
  confluence_modified : Option YVal
deriving Repr, DecidableEq

/-- The all-empty record returned on parse failure. -/
def nullFrontmatterRecord : FrontmatterRecord :=
  { title := none, labels := YVal.ylist [], parent := none, gdoc_url := none,
    confluence_url := none, batch := none, gdoc_created := none,
    gdoc_modified := none, confluence_created := none,
    confluence_modified := none }

/-- Transcription of `extract_frontmatter_metadata` (src/mdsync.py:712):
total by construction — the modelled parse failure produces the all-empty
record instead of raising. -/
def extract_frontmatter_metadata (c : String) : FrontmatterRecord :=
  match fmLoads? c with
  | some (m, _) =>
    { title := dictGet? m "title"
      labels := (dictGet? m "labels").getD (YVal.ylist [])
      parent := dictGet? m "parent"
      gdoc_url := dictGet? m "gdoc_url"
      confluence_url := dictGet? m "confluence_url"
      batch := dictGet? m "batch"
      gdoc_created := dictGet? m "gdoc_created"
      gdoc_modified := dictGet? m "gdoc_modified"
      confluence_created := dictGet? m "confluence_created"
      confluence_modified := dictGet? m "confluence_modified" }
  | none => nullFrontmatterRecord

/-! ## Helper lemmas -/

/-- The trimming operation is `rdropWhile` composed with `dropWhile`. -/
theorem trimChars_eq_rdrop (l : List Char) :
    trimChars l = List.rdropWhile pyIsSpace (l.dropWhile pyIsSpace) := rfl

/-- The head of a nonempty `dropWhile` result fails the predicate. -/
theorem dropWhile_head_not {p : Char → Bool} :
    ∀ {l c cs}, List.dropWhile p l = c :: cs → p c = false := by
  intro l
  induction l with
  | nil =>
    intro c cs h
    simp [List.dropWhile] at h
  | cons a rest ih =>
    intro c cs h
    by_cases ha : p a
    · rw [List.dropWhile_cons, if_pos ha] at h
      exact ih h
    · rw [List.dropWhile_cons, if_neg ha] at h
      obtain ⟨h1, _⟩ := List.cons.injEq .. ▸ h
      subst h1
      simpa using ha

/-- Trimming is idempotent: a trimmed list has no surrounding whitespace
left to remove. -/
theorem trimChars_trimChars (l : List Char) :
    trimChars (trimChars l) = trimChars l := by
  rw [trimChars_eq_rdrop, trimChars_eq_rdrop]
  have h1 : (List.rdropWhile pyIsSpace (l.dropWhile pyIsSpace)).dropWhile pyIsSpace
      = List.rdropWhile pyIsSpace (l.dropWhile pyIsSpace) := by
    rw [List.dropWhile_eq_self_iff]
    intro hl
    obtain ⟨t, ht⟩ := List.rdropWhile_prefix pyIsSpace (l.dropWhile pyIsSpace)
    obtain ⟨c, cs, hTc⟩ :=
      List.exists_cons_of_ne_nil (List.ne_nil_of_length_pos hl)
    have hA : List.dropWhile pyIsSpace l = c :: (cs ++ t) := by
      rw [← ht, hTc]
      simp
    have hpc : pyIsSpace c = false := dropWhile_head_not hA
    have hget : (List.rdropWhile pyIsSpace (l.dropWhile pyIsSpace)).get ⟨0, hl⟩ = c := by
      rw [List.get_of_eq hTc]
      exact List.get_cons_zero
    rw [hget, hpc]
    simp
  rw [h1, List.rdropWhile_eq_self_iff]
  intro hl
  exact List.rdropWhile_last_not pyIsSpace (l.dropWhile pyIsSpace) hl

/-- The head chunk produced by `splitNLAux` is the accumulator followed by
the characters before the first newline. -/
theorem splitNLAux_head (l : List Char) :
    ∀ acc, (splitNLAux l acc).head?.getD []
      = acc.reverse ++ l.takeWhile (fun c => c ≠ '\n') := by
  induction l with
  | nil => intro acc; simp [splitNLAux]
  | cons c rest ih =>
    intro acc
    by_cases hc : c = '\n'
    · subst hc
      simp [splitNLAux]
    · simp [splitNLAux, hc, ih (c :: acc), List.takeWhile_cons]

/-- The splitter never returns an empty list of chunks. -/
theorem splitNLAux_ne_nil (l : List Char) : ∀ acc, splitNLAux l acc ≠ [] := by
  induction l with
  | nil =>
    intro acc
    simp [splitNLAux]
  | cons c rest ih =>
    intro acc
    by_cases hc : c = '\n' <;> simp [splitNLAux, hc, ih]

/-- The first line of a split string is its text before the first newline. -/
theorem pySplitNL_head (c : String) :
    (pySplitNL c).head?.getD ""
      = String.mk (c.data.takeWhile (fun ch => ch ≠ '\n')) := by
  unfold pySplitNL
  rw [List.head?_map]
  obtain ⟨x, xs, hx⟩ := List.exists_cons_of_ne_nil (splitNLAux_ne_nil c.data [])
  have h := splitNLAux_head c.data []
  rw [hx] at h ⊢
  simp only [List.head?_cons, Option.getD_some, List.reverse_nil,
    List.nil_append] at h
  simp [h]

/-- When the first line of `c` is exactly `---`, the string starts with
`---`. -/
theorem firstLine_dashes_isPrefixOf {c : String}
    (h : (pySplitNL c).head?.getD "" = "---") :
    "---".data.isPrefixOf c.data = true := by
  rw [pySplitNL_head] at h
  have hdata : c.data.takeWhile (fun ch => ch ≠ '\n') = "---".data :=
    congrArg String.data h
  rw [List.isPrefixOf_iff_prefix, ← hdata]
  exact List.takeWhile_prefix _

/-- A scanner leaves the empty list unchanged when the matcher rejects it. -/
theorem subScan_nil (tryM : List Char → Option (List Char × List Char))
    (h : tryM [] = none) : ∀ fuel, subScan tryM fuel [] = [] := by
  intro fuel
  cases fuel with
  | zero => rfl
  | succ k => simp [subScan, h]

/-- A scanner is the identity when the matcher rejects every suffix. -/
theorem subScan_id (tryM : List Char → Option (List Char × List Char)) :
    ∀ (fuel : Nat) (l : List Char),
      (∀ n, n ≤ l.length → tryM (l.drop n) = none) →
      subScan tryM fuel l = l := by
  intro fuel
  induction fuel with
  | zero => intro l _; rfl
  | succ k ih =>
    intro l h
    have h0 : tryM l = none := by simpa using h 0 (by omega)
    cases l with
    | nil => simp [subScan, h0]
    | cons c cs =>
      have hc : ∀ n, n ≤ cs.length → tryM (cs.drop n) = none := by
        intro n hn
        have := h (n + 1) (by simp; omega)
        simpa using this
      simp [subScan, h0, ih cs hc]

/-- Substitution-pass identity when no match exists anywhere. -/
theorem runSub_id (tryM : List Char → Option (List Char × List Char))
    (l : List Char) (h : ∀ n, n ≤ l.length → tryM (l.drop n) = none) :
    runSub tryM l = l :=
  subScan_id tryM l.length l h

/-- The admonition pass is the identity when the uuid-independent match
function rejects every suffix (the hypothesis is a boolean sweep over all
positions, so it can be discharged by evaluation). -/
theorem admonition_pass_id (uuid : String) (l : List Char)
    (h : (List.range (l.length + 1)).all
      (fun n => admonitionMatch (l.drop n) == none) = true) :
    runSub (tryAdmonition uuid) l = l :=
  runSub_id _ l (fun n hn => by
    have hb := List.all_eq_true.mp h n (List.mem_range.mpr (by omega))
    unfold tryAdmonition
    rw [beq_iff_eq.mp hb])

/-- A substitution pass whose matcher consumes the entire input in one
match returns just the replacement. -/
theorem runSub_single (tryM : List Char → Option (List Char × List Char))
    (l rep : List Char) (hl : l ≠ []) (hm : tryM l = some (rep, []))
    (hnil : tryM [] = none) : runSub tryM l = rep := by
  unfold runSub
  obtain ⟨k, hk⟩ : ∃ k, l.length = k + 1 := by
    cases l with
    | nil => exact absurd rfl hl
    | cons a as => exact ⟨as.length, rfl⟩
  rw [hk]
  simp [subScan, hm, subScan_nil tryM hnil k]

/-- When a pattern occurs nowhere in `a`, it is a prefix of no suffix. -/
theorem no_occurrence_of_contains_false {pat a : List Char}
    (h : containsSubChars pat a = false) :
    ∀ s, s <:+ a → pat.isPrefixOf s = false := by
  induction a with
  | nil =>
    intro s hs
    rw [List.suffix_nil.mp hs]
    cases pat with
    | nil => simp [containsSubChars] at h
    | cons p ps => rfl
  | cons c rest ih =>
    intro s hs
    simp only [containsSubChars, Bool.or_eq_false_iff] at h
    rcases List.suffix_cons_iff.mp hs with h1 | h1
    · rw [h1]; exact h.1
    · exact ih h.2 s h1

/-- First-occurrence splitting: for a border-free pattern that does not
occur in `a`, `splitAtFirst` on `a ++ pat ++ b` splits exactly at the
explicit occurrence. -/
theorem splitAtFirst_append {pat b : List Char} (hbf : borderFree pat = true)
    (hne : pat ≠ []) :
    ∀ a : List Char, containsSubChars pat a = false →
      splitAtFirst pat (a ++ (pat ++ b)) = some (a, b) := by
  intro a
  induction a with
  | nil =>
    intro _
    rw [List.nil_append]
    obtain ⟨p, ps, hp⟩ := List.exists_cons_of_ne_nil hne
    rw [hp, List.cons_append]
    have hpre : (p :: ps).isPrefixOf (p :: (ps ++ b)) = true := by
      rw [List.isPrefixOf_iff_prefix, ← List.cons_append]
      exact List.prefix_append _ _
    rw [splitAtFirst, if_pos hpre]
    rw [← List.cons_append, List.length_cons, ← List.length_cons p ps,
      List.drop_left]
  | cons c a' ih =>
    intro hcf
    simp only [containsSubChars, Bool.or_eq_false_iff] at hcf
    have hnp : pat.isPrefixOf (c :: (a' ++ (pat ++ b))) = false := by
      by_contra hcon
      have hpre : pat <+: (c :: a') ++ (pat ++ b) := by
        rw [List.cons_append]
        simp only [Bool.not_eq_false] at hcon
        exact List.isPrefixOf_iff_prefix.mp hcon
      by_cases hlen : pat.length ≤ (c :: a').length
      · have hp2 : pat <+: c :: a' :=
          List.prefix_of_prefix_length_le hpre (List.prefix_append _ _) hlen
        have := List.isPrefixOf_iff_prefix.mpr hp2
        rw [hcf.1] at this
        exact Bool.false_ne_true this
      · push_neg at hlen
        obtain ⟨r, hr⟩ := hpre
        have hdrop : pat.drop (c :: a').length ++ r = pat ++ b := by
          have hcg := congrArg (List.drop (c :: a').length) hr
          rw [List.drop_append_of_le_length (le_of_lt hlen), List.drop_left] at hcg
          exact hcg
        have hbord : pat.drop (c :: a').length <+: pat := by
          refine List.prefix_of_prefix_length_le ⟨r, hdrop⟩
            (List.prefix_append _ _) ?_
          simp [List.length_drop]
        have hk := List.all_eq_true.mp hbf (c :: a').length
          (List.mem_range.mpr hlen)
        have hs0 : (c :: a').length ≠ 0 := by simp
        simp only [decide_eq_true_eq, hs0, decide_False, Bool.false_or,
          Bool.not_eq_true'] at hk
        exact absurd (List.isPrefixOf_iff_prefix.mpr hbord)
          (by rw [hk]; exact Bool.false_ne_true)
    rw [List.cons_append, splitAtFirst, if_neg (by rw [hnp]; exact Bool.false_ne_true),
      ih hcf.2]

/-- `takeWhile` over an append that stops exactly at the boundary. -/
theorem takeWhile_append_stop {p : Char → Bool} {c : Char} (hc : p c = false) :
    ∀ (a r : List Char), (∀ x ∈ a, p x = true) →
      (a ++ c :: r).takeWhile p = a := by
  intro a
  induction a with
  | nil =>
    intro r _
    simp [List.takeWhile_cons, hc]
  | cons x xs ih =>
    intro r ha
    have hx : p x = true := ha x (by simp)
    simp [List.takeWhile_cons, hx, ih r (fun y hy => ha y (by simp [hy]))]

/-- The first imperative loop of the section finder is `find?` over the
H1-and-contains predicate, projected to the end index. -/
theorem findH1Loop_eq (title : String) :
    ∀ l : List GElement, findH1Loop title l
      = (l.find? (fun e => isH1 e &&
          pyContains (pyLower (elemText e)) (pyLower title))).map
        (fun e => e.endIndex) := by
  intro l
  induction l with
  | nil => rfl
  | cons e rest ih =>
    cases hp : e.paragraph with
    | none =>
      have hpe : (isH1 e &&
          pyContains (pyLower (elemText e)) (pyLower title)) = false := by
        simp [isH1, hp]
      simp only [findH1Loop, hp]
      rw [List.find?_cons_of_neg rest (by simp [hpe]), ih]
    | some p =>
      by_cases hs : p.namedStyleType = some "HEADING_1"
      · by_cases hc : pyContains (pyLower (paraText p)) (pyLower title) = true
        · have hpe : (isH1 e &&
              pyContains (pyLower (elemText e)) (pyLower title)) = true := by
            simp [isH1, elemText, hp, hs, hc]
          simp only [findH1Loop, hp, if_pos hs, if_pos hc]
          rw [List.find?_cons_of_pos rest hpe]
          rfl
        · have hpe : (isH1 e &&
              pyContains (pyLower (elemText e)) (pyLower title)) = false := by
            simp only [isH1, elemText, hp, hs, decide_True, Bool.true_and]
            exact Bool.eq_false_iff.mpr hc
          simp only [findH1Loop, hp, if_pos hs, if_neg hc]
          rw [List.find?_cons_of_neg rest (by simp [hpe]), ih]
      · have hpe : (isH1 e &&
            pyContains (pyLower (elemText e)) (pyLower title)) = false := by
          simp [isH1, hp, hs]
        simp only [findH1Loop, hp, if_neg hs]
        rw [List.find?_cons_of_neg rest (by simp [hpe]), ih]

/-- The second imperative loop is `find?` over the strictly-later-H1
predicate, projected to the start index. -/
theorem findEndLoop_eq (hstart : Nat) :
    ∀ l : List GElement, findEndLoop hstart l
      = (l.find? (fun e => decide (hstart < e.startIndex) && isH1 e)).map
        (fun e => e.startIndex) := by
  intro l
  induction l with
  | nil => rfl
  | cons e rest ih =>
    by_cases hb : (decide (hstart < e.startIndex) && isH1 e) = true
    · simp only [findEndLoop, hb, if_true]
      rw [List.find?_cons_of_pos rest hb]
      rfl
    · have hbf : (decide (hstart < e.startIndex) && isH1 e) = false :=
        Bool.eq_false_iff.mpr hb
      simp only [findEndLoop, hbf, Bool.false_eq_true, if_false]
      rw [List.find?_cons_of_neg rest (by simp [hbf]), ih]

/-- The third imperative loop concatenates the element texts of the
in-range filter. -/
theorem collectLoop_eq (hstart hend : Nat) :
    ∀ l : List GElement, collectLoop hstart hend l
      = concatElemTexts (l.filter
          (fun e => decide (hstart ≤ e.startIndex) &&
            decide (e.endIndex ≤ hend))) := by
  intro l
  induction l with
  | nil => rfl
  | cons e rest ih =>
    by_cases hb : (decide (hstart ≤ e.startIndex) &&
        decide (e.endIndex ≤ hend)) = true
    · simp only [collectLoop, hb, if_true, List.filter_cons, concatElemTexts,
        List.foldr_cons, ih, elemText]
    · have hbf : (decide (hstart ≤ e.startIndex) &&
          decide (e.endIndex ≤ hend)) = false := Bool.eq_false_iff.mpr hb
      simp only [collectLoop, hbf, Bool.false_eq_true, if_false,
        List.filter_cons, ih]
      rfl

/-! ## Serialization round-trip lemmas for the frontmatter model -/

/-- Parsing a quoted scalar recovers the escaped content and remainder. -/
theorem parseQuoted_esc :
    ∀ (s r : List Char), parseQuoted (escChars s ++ '"' :: r) = some (s, r) := by
  intro s
  induction s with
  | nil => intro r; rfl
  | cons c cs ih =>
    intro r
    by_cases h1 : c = '\\'
    · subst h1
      simp only [escChars, if_pos rfl, List.cons_append]
      simp [parseQuoted, ih r]
    · by_cases h2 : c = '"'
      · subst h2
        simp only [escChars, if_neg h1, if_pos rfl, List.cons_append]
        simp [parseQuoted, ih r]
      · by_cases h3 : c = '\n'
        · subst h3
          simp only [escChars, if_neg h1, if_neg h2, if_pos rfl,
            List.cons_append]
          simp [parseQuoted, ih r]
        · simp only [escChars, if_neg h1, if_neg h2, if_neg h3,
            List.cons_append]
          cases hcs : escChars cs ++ '"' :: r with
          | nil => simp at hcs
          | cons d ds =>
            have hstep : parseQuoted (c :: d :: ds)
                = match parseQuoted (d :: ds) with
                  | some (a, r2) => some (c :: a, r2)
                  | none => none := by
              simp [parseQuoted, h1, h2]
            have hihr := ih r
            rw [hcs] at hihr
            rw [hstep, hihr]

/-- Scanning a serialized item inside a flow list pushes the item and
moves past its closing quote. -/
theorem parseListAux_esc :
    ∀ (s rest cur : List Char) (items : List String),
      parseListAux (escChars s ++ '"' :: rest) 1 cur items
        = parseListAux rest 3 [] (String.mk (cur.reverse ++ s) :: items) := by
  intro s
  induction s with
  | nil =>
    intro rest cur items
    simp [escChars, parseListAux]
  | cons c cs ih =>
    intro rest cur items
    by_cases h1 : c = '\\'
    · subst h1
      have he : escChars ('\\' :: cs) ++ '"' :: rest
          = '\\' :: '\\' :: (escChars cs ++ '"' :: rest) := by simp [escChars]
      rw [he]
      rw [show parseListAux ('\\' :: '\\' :: (escChars cs ++ '"' :: rest)) 1 cur items
          = parseListAux (escChars cs ++ '"' :: rest) 1 ('\\' :: cur) items from by
        simp [parseListAux]]
      rw [ih rest ('\\' :: cur) items]
      simp
    · by_cases h2 : c = '"'
      · subst h2
        have he : escChars ('"' :: cs) ++ '"' :: rest
            = '\\' :: '"' :: (escChars cs ++ '"' :: rest) := by simp [escChars]
        rw [he]
        rw [show parseListAux ('\\' :: '"' :: (escChars cs ++ '"' :: rest)) 1 cur items
            = parseListAux (escChars cs ++ '"' :: rest) 1 ('"' :: cur) items from by
          simp [parseListAux]]
        rw [ih rest ('"' :: cur) items]
        simp
      · by_cases h3 : c = '\n'
        · subst h3
          have he : escChars ('\n' :: cs) ++ '"' :: rest
              = '\\' :: 'n' :: (escChars cs ++ '"' :: rest) := by simp [escChars]
          rw [he]
          rw [show parseListAux ('\\' :: 'n' :: (escChars cs ++ '"' :: rest)) 1 cur items
              = parseListAux (escChars cs ++ '"' :: rest) 1 ('\n' :: cur) items from by
            simp [parseListAux]]
          rw [ih rest ('\n' :: cur) items]
          simp
        · have he : escChars (c :: cs) ++ '"' :: rest
              = c :: (escChars cs ++ '"' :: rest) := by
            simp [escChars, h1, h2, h3]
          rw [he]
          cases hcs : escChars cs ++ '"' :: rest with
          | nil => simp at hcs
          | cons d ds =>
            have hstep : parseListAux (c :: d :: ds) 1 cur items
                = parseListAux (d :: ds) 1 (c :: cur) items := by
              simp [parseListAux, h1, h2]
            have hihr := ih rest (c :: cur) items
            rw [hcs] at hihr
            rw [hstep, hihr]
            simp

/-- Parsing the serialized items of a flow list recovers them. -/
theorem parseListAux_items :
    ∀ (l items : List String),
      parseListAux (dumpListItems l ++ [']']) 0 [] items
        = some (items.reverse ++ l) := by
  intro l
  induction l with
  | nil =>
    intro items
    simp [dumpListItems, parseListAux]
  | cons s rest ih =>
    intro items
    cases rest with
    | nil =>
      simp only [dumpListItems, quoteChars]
      have hsh : (('"' :: (escChars s.data ++ ['"'])) ++ [']'])
          = '"' :: (escChars s.data ++ '"' :: [']']) := by simp
      rw [hsh]
      rw [show parseListAux ('"' :: (escChars s.data ++ '"' :: [']'])) 0 [] items
          = parseListAux (escChars s.data ++ '"' :: [']']) 1 [] items from by
        simp [parseListAux]]
      rw [parseListAux_esc s.data [']'] [] items]
      simp [parseListAux]
    | cons s2 rest2 =>
      rw [show dumpListItems (s :: s2 :: rest2)
          = quoteChars s ++ (',' :: ' ' :: dumpListItems (s2 :: rest2)) from rfl]
      simp only [quoteChars]
      have hsh : ((('"' :: (escChars s.data ++ ['"'])) ++
            (',' :: ' ' :: dumpListItems (s2 :: rest2))) ++ [']'])
          = '"' :: (escChars s.data ++ '"' ::
              (',' :: ' ' :: (dumpListItems (s2 :: rest2) ++ [']']))) := by
        simp
      rw [hsh]
      rw [show parseListAux ('"' :: (escChars s.data ++ '"' ::
            (',' :: ' ' :: (dumpListItems (s2 :: rest2) ++ [']'])))) 0 [] items
          = parseListAux (escChars s.data ++ '"' ::
              (',' :: ' ' :: (dumpListItems (s2 :: rest2) ++ [']']))) 1 [] items from by
        simp [parseListAux]]
      rw [parseListAux_esc s.data
        (',' :: ' ' :: (dumpListItems (s2 :: rest2) ++ [']'])) [] items]
      rw [show parseListAux (',' :: ' ' :: (dumpListItems (s2 :: rest2) ++ [']'])) 3 []
            (String.mk ([].reverse ++ s.data) :: items)
          = parseListAux (dumpListItems (s2 :: rest2) ++ [']']) 0 []
            (String.mk ([].reverse ++ s.data) :: items) from by
        simp [parseListAux]]
      rw [ih (String.mk ([].reverse ++ s.data) :: items)]
      simp

/-- Serialization round trip for values. -/
theorem parseVal_dumpVal : ∀ v : YVal, parseVal (dumpVal v) = some v := by
  intro v
  cases v with
  | ynull => decide
  | ystr s =>
    simp only [dumpVal, quoteChars]
    rw [show parseVal ('"' :: (escChars s.data ++ ['"']))
        = (match parseQuoted (escChars s.data ++ ['"']) with
          | some (a, r) => if r.isEmpty then some (YVal.ystr (String.mk a)) else none
          | none => none) from by simp [parseVal]]
    rw [show (escChars s.data ++ ['"']) = escChars s.data ++ '"' :: [] from rfl]
    rw [parseQuoted_esc s.data []]
    rfl
  | ylist l =>
    simp only [dumpVal]
    rw [show parseVal ('[' :: (dumpListItems l ++ [']']))
        = (parseListAux (dumpListItems l ++ [']']) 0 [] []).map YVal.ylist from by
      simp [parseVal]]
    rw [parseListAux_items l []]
    rfl

/-- Serialization round trip for metadata lines. -/
theorem parseLine_dumpLine (k : String) (v : YVal) :
    parseLine (dumpLineChars k v) = some (k, v) := by
  simp only [dumpLineChars, quoteChars]
  have hsh : (('"' :: (escChars k.data ++ ['"'])) ++ (':' :: ' ' :: dumpVal v))
      = '"' :: (escChars k.data ++ '"' :: (':' :: ' ' :: dumpVal v)) := by simp
  rw [hsh]
  rw [show parseLine ('"' :: (escChars k.data ++ '"' :: (':' :: ' ' :: dumpVal v)))
      = (match parseQuoted (escChars k.data ++ '"' :: (':' :: ' ' :: dumpVal v)) with
        | some (kk, r) =>
          match r with
          | ':' :: ' ' :: vchars => (parseVal vchars).map (fun w => (String.mk kk, w))
          | _ => none
        | none => none) from by simp [parseLine]]
  rw [parseQuoted_esc k.data (':' :: ' ' :: dumpVal v)]
  simp [parseVal_dumpVal v]

/-- Keys after a dict assignment: unchanged for an existing key, appended
for a fresh one. -/
theorem dictSet_keys {β : Type} (m : List (String × β)) (k : String) (v : β) :
    (dictSet m k v).map Prod.fst
      = if k ∈ m.map Prod.fst then m.map Prod.fst
        else m.map Prod.fst ++ [k] := by
  induction m with
  | nil => simp [dictSet]
  | cons kv rest ih =>
    obtain ⟨k0, v0⟩ := kv
    by_cases h : k0 = k
    · subst h
      simp [dictSet]
    · simp only [dictSet, if_neg h, List.map_cons, ih]
      by_cases hm : k ∈ rest.map Prod.fst
      · simp [hm, Ne.symm h]
      · simp [hm, Ne.symm h]

/-- Dict assignment preserves key distinctness. -/
theorem dictSet_nodup {β : Type} {m : List (String × β)}
    (h : (m.map Prod.fst).Nodup) (k : String) (v : β) :
    ((dictSet m k v).map Prod.fst).Nodup := by
  rw [dictSet_keys]
  by_cases hm : k ∈ m.map Prod.fst
  · simpa [hm] using h
  · simp only [hm, if_false]
    rw [List.nodup_append]
    exact ⟨h, List.nodup_singleton k, by
      intro a ha hak
      simp only [List.mem_singleton] at hak
      exact hm (hak ▸ ha)⟩

/-- Assigning a fresh key appends the binding. -/
theorem dictSet_fresh {β : Type} {m : List (String × β)} {k : String}
    (h : k ∉ m.map Prod.fst) (v : β) : dictSet m k v = m ++ [(k, v)] := by
  induction m with
  | nil => rfl
  | cons kv rest ih =>
    obtain ⟨k0, v0⟩ := kv
    simp only [List.map_cons, List.mem_cons] at h
    push_neg at h
    have hne : ¬k0 = k := fun he => h.1 he.symm
    simp [dictSet, hne, ih h.2]

/-- Looking up the key just assigned. -/
theorem dictGet_dictSet_self {β : Type} (m : List (String × β)) (k : String)
    (v : β) : dictGet? (dictSet m k v) k = some v := by
  induction m with
  | nil => simp [dictSet, dictGet?]
  | cons kv rest ih =>
    obtain ⟨k0, v0⟩ := kv
    by_cases h : k0 = k
    · subst h
      simp [dictSet, dictGet?]
    · simp [dictSet, dictGet?, h, ih]

/-- Looking up a different key after an assignment. -/
theorem dictGet_dictSet_other {β : Type} (m : List (String × β)) {k k2 : String}
    (h : k ≠ k2) (v : β) : dictGet? (dictSet m k v) k2 = dictGet? m k2 := by
  induction m with
  | nil => simp [dictSet, dictGet?, h]
  | cons kv rest ih =>
    obtain ⟨k0, v0⟩ := kv
    by_cases h1 : k0 = k
    · subst h1
      simp [dictSet, dictGet?, h]
    · simp [dictSet, dictGet?, h1, ih]

/-- Assigning the value a key already holds changes nothing. -/
theorem dictSet_eq_self {β : Type} {m : List (String × β)} {k : String}
    {v : β} (h : dictGet? m k = some v) : dictSet m k v = m := by
  induction m with
  | nil => simp [dictGet?] at h
  | cons kv rest ih =>
    obtain ⟨k0, v0⟩ := kv
    by_cases h1 : k0 = k
    · subst h1
      simp [dictGet?] at h
      subst h
      simp [dictSet]
    · simp only [dictGet?, h1, if_false] at h
      simp [dictSet, h1, ih h]

/-- Unfolding one patch entry of the merge. -/
theorem mergeMeta_cons (m : List (String × YVal)) (k : String) (v : YVal)
    (t : List (String × YVal)) :
    mergeMeta m ((k, v) :: t) = mergeMeta (dictSet m k v) t := rfl

/-- Merging preserves key distinctness. -/
theorem merge_nodup : ∀ (p m : List (String × YVal)),
    (m.map Prod.fst).Nodup → ((mergeMeta m p).map Prod.fst).Nodup := by
  intro p
  induction p with
  | nil =>
    intro m h
    exact h
  | cons kv t ih =>
    intro m h
    obtain ⟨k, v⟩ := kv
    rw [mergeMeta_cons]
    exact ih _ (dictSet_nodup h k v)

/-- A merge over a patch whose keys avoid `k` does not change `k`'s
binding. -/
theorem merge_lookup_skip :
    ∀ (t m : List (String × YVal)) (k : String),
      k ∉ t.map Prod.fst →
      dictGet? (mergeMeta m t) k = dictGet? m k := by
  intro t
  induction t with
  | nil =>
    intro m k _
    rfl
  | cons kv t2 ih =>
    intro m k h
    obtain ⟨k2, w⟩ := kv
    simp only [List.map_cons, List.mem_cons] at h
    push_neg at h
    rw [mergeMeta_cons, ih _ k h.2, dictGet_dictSet_other m (Ne.symm h.1)]

/-- After merging a duplicate-free patch, each patch key holds its patch
value. -/
theorem merge_lookup :
    ∀ (p m : List (String × YVal)) (k : String) (v : YVal),
      (p.map Prod.fst).Nodup → (k, v) ∈ p →
      dictGet? (mergeMeta m p) k = some v := by
  intro p
  induction p with
  | nil =>
    intro m k v _ hm
    simp at hm
  | cons kv t ih =>
    intro m k v hp hm
    obtain ⟨k0, v0⟩ := kv
    simp only [List.map_cons, List.nodup_cons] at hp
    obtain ⟨hk0, ht⟩ := hp
    rcases List.mem_cons.mp hm with he | ht2
    · obtain ⟨he1, he2⟩ := Prod.mk.injEq .. ▸ he
      subst he1
      subst he2
      rw [mergeMeta_cons, merge_lookup_skip t _ k hk0,
        dictGet_dictSet_self]
    · rw [mergeMeta_cons]
      exact ih _ k v ht ht2

/-- A merge whose every entry restates the current binding is the
identity. -/
theorem merge_eq_self_of_lookup :
    ∀ (p m : List (String × YVal)),
      (∀ kv ∈ p, dictGet? m kv.1 = some kv.2) → mergeMeta m p = m := by
  intro p
  induction p with
  | nil =>
    intro m _
    rfl
  | cons kv t ih =>
    intro m h
    obtain ⟨k, v⟩ := kv
    rw [mergeMeta_cons, dictSet_eq_self (h (k, v) (by simp))]
    exact ih m (fun kv2 h2 => h kv2 (by simp [h2]))

/-- Merging a duplicate-free patch twice equals merging it once. -/
theorem merge_idem (p m : List (String × YVal))
    (hp : (p.map Prod.fst).Nodup) :
    mergeMeta (mergeMeta m p) p = mergeMeta m p :=
  merge_eq_self_of_lookup p (mergeMeta m p)
    (fun kv hkv => merge_lookup p m kv.1 kv.2 hp hkv)

/-- Parsing metadata lines preserves key distinctness of the result. -/
theorem parseMetaLines_nodup :
    ∀ (lines : List (List Char)) (acc out : List (String × YVal)),
      (acc.map Prod.fst).Nodup → parseMetaLines lines acc = some out →
      (out.map Prod.fst).Nodup := by
  intro lines
  induction lines with
  | nil =>
    intro acc out h hp
    cases hp
    exact h
  | cons line rest ih =>
    intro acc out h hp
    simp only [parseMetaLines] at hp
    cases hl : parseLine line with
    | none =>
      rw [hl] at hp
      exact Option.noConfusion hp
    | some kv =>
      rw [hl] at hp
      exact ih _ out (dictSet_nodup h kv.1 kv.2) hp

/-- Parsing the dump of a duplicate-free mapping recovers it. -/
theorem parseMetaLines_dump :
    ∀ (m acc : List (String × YVal)),
      (((acc ++ m).map Prod.fst)).Nodup →
      parseMetaLines (m.map (fun kv => dumpLineChars kv.1 kv.2)) acc
        = some (acc ++ m) := by
  intro m
  induction m with
  | nil =>
    intro acc _
    simp [parseMetaLines]
  | cons kv t ih =>
    intro acc h
    obtain ⟨k, v⟩ := kv
    simp only [List.map_cons, parseMetaLines, parseLine_dumpLine]
    have hk : k ∉ acc.map Prod.fst := by
      intro hmem
      rw [List.map_append] at h
      obtain ⟨_, _, hdisj⟩ := List.nodup_append.mp h
      exact hdisj hmem (by simp)
    rw [dictSet_fresh hk v]
    have h2 : (((acc ++ [(k, v)]) ++ t).map Prod.fst).Nodup := by
      simpa [List.append_assoc] using h
    rw [ih (acc ++ [(k, v)]) h2]
    simp

/-- Stripping is idempotent at the `String` level. -/
theorem pyStrip_pyStrip (s : String) : pyStrip (pyStrip s) = pyStrip s :=
  congrArg String.mk (trimChars_trimChars s.data)

/-- Escaping produces no raw newline. -/
theorem escChars_no_nl : ∀ s : List Char, '\n' ∉ escChars s := by
  intro s
  induction s with
  | nil => simp [escChars]
  | cons c cs ih =>
    by_cases h1 : c = '\\'
    · simp [escChars, h1, ih]
    · by_cases h2 : c = '"'
      · simp [escChars, h1, h2, ih]
      · by_cases h3 : c = '\n'
        · simp [escChars, h1, h2, h3, ih]
        · simp [escChars, h1, h2, h3, ih]
          exact fun he => h3 he.symm

/-- A quoted scalar contains no raw newline. -/
theorem quoteChars_no_nl (s : String) : '\n' ∉ quoteChars s := by
  simp [quoteChars, escChars_no_nl s.data]

/-- Serialized list items contain no raw newline. -/
theorem dumpListItems_no_nl : ∀ l : List String, '\n' ∉ dumpListItems l := by
  intro l
  induction l with
  | nil => simp [dumpListItems]
  | cons s rest ih =>
    cases rest with
    | nil => simpa [dumpListItems] using quoteChars_no_nl s
    | cons s2 rest2 =>
      rw [show dumpListItems (s :: s2 :: rest2)
          = quoteChars s ++ (',' :: ' ' :: dumpListItems (s2 :: rest2)) from rfl]
      simp [quoteChars_no_nl s, ih]

/-- Serialized values contain no raw newline. -/
theorem dumpVal_no_nl : ∀ v : YVal, '\n' ∉ dumpVal v := by
  intro v
  cases v with
  | ynull => decide
  | ystr s => simpa [dumpVal] using quoteChars_no_nl s
  | ylist l => simp [dumpVal, dumpListItems_no_nl l]

/-- Serialized metadata lines contain no raw newline. -/
theorem dumpLineChars_no_nl (k : String) (v : YVal) :
    '\n' ∉ dumpLineChars k v := by
  simp [dumpLineChars, quoteChars_no_nl k, dumpVal_no_nl v]

/-- A serialized metadata line is never the closing delimiter. -/
theorem dumpLine_ne_dashes (k : String) (v : YVal) :
    String.mk (dumpLineChars k v) ≠ "---" := by
  intro h
  have hd : dumpLineChars k v = "---".data := congrArg String.data h
  rw [show dumpLineChars k v = '"' :: (escChars k.data ++ ['"'] ++
      (':' :: ' ' :: dumpVal v)) from by simp [dumpLineChars, quoteChars]] at hd
  exact absurd (List.head_eq_of_cons_eq hd) (by decide)

/-- Splitting an appended newline-free chunk isolates that chunk. -/
theorem splitNLAux_append_nl :
    ∀ (a rest acc : List Char), '\n' ∉ a →
      splitNLAux (a ++ '\n' :: rest) acc
        = (acc.reverse ++ a) :: splitNLAux rest [] := by
  intro a
  induction a with
  | nil =>
    intro rest acc _
    simp [splitNLAux]
  | cons c a2 ih =>
    intro rest acc h
    simp only [List.mem_cons] at h
    push_neg at h
    have hc : ¬c = '\n' := fun he => h.1 he.symm
    simp only [List.cons_append, splitNLAux, if_neg hc, List.append_eq]
    rw [ih rest (c :: acc) h.2]
    simp

/-- Splitting after the serialized metadata block yields one chunk per
key before the continuation. -/
theorem splitNLAux_dumpMeta :
    ∀ (m : List (String × YVal)) (tail : List Char),
      splitNLAux (dumpMeta m ++ tail) []
        = (m.map fun kv => dumpLineChars kv.1 kv.2) ++ splitNLAux tail [] := by
  intro m
  induction m with
  | nil =>
    intro tail
    simp [dumpMeta]
  | cons kv t ih =>
    intro tail
    obtain ⟨k, v⟩ := kv
    rw [show dumpMeta ((k, v) :: t) ++ tail
        = dumpLineChars k v ++ '\n' :: (dumpMeta t ++ tail) from by
      simp [dumpMeta]]
    rw [splitNLAux_append_nl _ _ [] (dumpLineChars_no_nl k v)]
    rw [ih tail]
    simp

/-- Joining the chunks of a split recovers the original characters. -/
theorem joinNLChars_splitNLAux :
    ∀ (l acc : List Char), joinNLChars (splitNLAux l acc) = acc.reverse ++ l := by
  intro l
  induction l with
  | nil =>
    intro acc
    simp [splitNLAux, joinNLChars]
  | cons c rest ih =>
    intro acc
    by_cases hc : c = '\n'
    · subst hc
      have hs : splitNLAux ('\n' :: rest) acc
          = acc.reverse :: splitNLAux rest [] := by simp [splitNLAux]
      rw [hs]
      obtain ⟨r1, rs, hr⟩ :=
        List.exists_cons_of_ne_nil (splitNLAux_ne_nil rest [])
      rw [hr, show joinNLChars (acc.reverse :: r1 :: rs)
          = acc.reverse ++ '\n' :: joinNLChars (r1 :: rs) from rfl, ← hr,
        ih []]
      simp
    · simp only [splitNLAux, if_neg hc]
      rw [ih (c :: acc)]
      simp

/-- Joining a split string recovers it. -/
theorem joinNL_pySplitNL (s : String) : joinNL (pySplitNL s) = s := by
  unfold joinNL pySplitNL
  rw [List.map_map]
  have hmm : (String.data ∘ String.mk) = id := rfl
  rw [hmm, List.map_id, joinNLChars_splitNLAux s.data []]
  rfl

/-- Index of the closing delimiter line after unparseable-free lines. -/
theorem findIdx_dashes :
    ∀ (pre rest : List String),
      (∀ x ∈ pre, (x == "---") = false) →
      (pre ++ "---" :: rest).findIdx? (fun line => line == "---")
        = some pre.length := by
  intro pre
  induction pre with
  | nil =>
    intro rest _
    simp [List.findIdx?_cons]
  | cons x xs ih =>
    intro rest h
    have hx := h x (by simp)
    simp only [List.cons_append, List.findIdx?_cons, hx, Bool.false_eq_true,
      if_false]
    rw [Nat.zero_add, List.findIdx?_succ, ih rest (fun y hy => h y (by simp [hy]))]
    simp

/-- A list whose head and last survive the whitespace test is trim-fixed. -/
theorem trimChars_eq_self_of {l : List Char}
    (h1 : ∀ c, l.head? = some c → pyIsSpace c = false)
    (h2 : ∀ c, l.getLast? = some c → pyIsSpace c = false) :
    trimChars l = l := by
  cases l with
  | nil => rfl
  | cons c rest =>
    have hc : pyIsSpace c = false := h1 c rfl
    have hd : (c :: rest).dropWhile pyIsSpace = c :: rest := by
      rw [List.dropWhile_cons, if_neg (by simp [hc])]
    rw [trimChars_eq_rdrop, hd, List.rdropWhile_eq_self_iff]
    intro hl
    have := h2 ((c :: rest).getLast hl) (List.getLast?_eq_getLast _ hl)
    simp [this]

/-- The last character of a trim-fixed nonempty string is not whitespace. -/
theorem stripped_last_not_ws {b : String} (hb : pyStrip b = b) :
    ∀ c, b.data.getLast? = some c → pyIsSpace c = false := by
  intro c hc
  have he : trimChars b.data = b.data := congrArg String.data hb
  rw [trimChars_eq_rdrop] at he
  have h4 : (List.rdropWhile pyIsSpace (b.data.dropWhile pyIsSpace)).getLast?
      = some c := by
    rw [he]
    exact hc
  have hne : List.rdropWhile pyIsSpace (b.data.dropWhile pyIsSpace) ≠ [] := by
    intro h0
    rw [h0] at h4
    exact Option.noConfusion h4
  have hlast := List.rdropWhile_last_not pyIsSpace
    (b.data.dropWhile pyIsSpace) hne
  have h5 := List.getLast?_eq_getLast
    (List.rdropWhile pyIsSpace (b.data.dropWhile pyIsSpace)) hne
  rw [h4] at h5
  have h6 : (List.rdropWhile pyIsSpace (b.data.dropWhile pyIsSpace)).getLast hne
      = c := (Option.some.injEq .. ▸ h5).symm
  rw [h6] at hlast
  simp only [Bool.not_eq_true] at hlast
  exact hlast

/-- Character shape of the raw (unstripped) dump. -/
theorem fmDumps_raw_data (m : List (String × YVal)) (b : String) :
    ("---\n" ++ String.mk (dumpMeta m) ++ "---\n\n" ++ b).data
      = "---".data ++ '\n' ::
          (dumpMeta m ++ ("---".data ++ '\n' :: '\n' :: b.data)) := by
  simp [String.data_append]

/-- Character shape of the dump of a trim-fixed nonempty body. -/
theorem fmDumps_data_of_stripped (m : List (String × YVal)) (b : String)
    (hb : pyStrip b = b) (hne : b ≠ "") :
    (fmDumps m b).data
      = "---".data ++ '\n' ::
          (dumpMeta m ++ ("---".data ++ '\n' :: '\n' :: b.data)) := by
  have hbd : b.data ≠ [] := by
    intro h0
    exact hne (congrArg String.mk h0)
  show trimChars ("---\n" ++ String.mk (dumpMeta m) ++ "---\n\n" ++ b).data = _
  rw [fmDumps_raw_data]
  apply trimChars_eq_self_of
  · intro c hc
    rw [show ("---".data ++ '\n' ::
        (dumpMeta m ++ ("---".data ++ '\n' :: '\n' :: b.data)))
        = '-' :: ('-' :: '-' :: '\n' ::
          (dumpMeta m ++ ("---".data ++ '\n' :: '\n' :: b.data))) from rfl] at hc
    simp only [List.head?_cons, Option.some.injEq] at hc
    rw [← hc]
    decide
  · intro c hc
    rw [show ("---".data ++ '\n' ::
        (dumpMeta m ++ ("---".data ++ '\n' :: '\n' :: b.data)))
        = ("---".data ++ '\n' ::
            (dumpMeta m ++ ("---".data ++ ['\n', '\n']))) ++ b.data from by
      simp] at hc
    rw [List.getLast?_append_of_ne_nil _ hbd] at hc
    exact stripped_last_not_ws hb c hc

/-- Character shape of the dump of the empty body. -/
theorem fmDumps_data_empty (m : List (String × YVal)) :
    (fmDumps m "").data = "---".data ++ '\n' :: (dumpMeta m ++ "---".data) := by
  show trimChars ("---\n" ++ String.mk (dumpMeta m) ++ "---\n\n" ++ "").data = _
  rw [fmDumps_raw_data]
  have hsh : ("---".data ++ '\n' ::
      (dumpMeta m ++ ("---".data ++ '\n' :: '\n' :: ("" : String).data)))
      = (("---".data ++ '\n' :: (dumpMeta m ++ "---".data)) ++ ['\n']) ++ ['\n'] := by
    simp
  rw [hsh, trimChars_eq_rdrop]
  have hdw : ((("---".data ++ '\n' :: (dumpMeta m ++ "---".data)) ++ ['\n']) ++
      ['\n']).dropWhile pyIsSpace
      = (("---".data ++ '\n' :: (dumpMeta m ++ "---".data)) ++ ['\n']) ++ ['\n'] := by
    rw [show ((("---".data ++ '\n' :: (dumpMeta m ++ "---".data)) ++ ['\n']) ++ ['\n'])
        = '-' :: (('-' :: '-' :: '\n' :: (dumpMeta m ++ "---".data)) ++
          ['\n'] ++ ['\n']) from by simp]
    rw [List.dropWhile_cons, if_neg (by decide)]
  rw [hdw, List.rdropWhile_concat_pos _ _ _ (by decide),
    List.rdropWhile_concat_pos _ _ _ (by decide),
    List.rdropWhile_eq_self_iff]
  intro hl
  have hgl : ("---".data ++ '\n' :: (dumpMeta m ++ "---".data)).getLast? = some '-' := by
    rw [show ("---".data ++ '\n' :: (dumpMeta m ++ "---".data))
        = ("---".data ++ '\n' :: dumpMeta m) ++ "---".data from by simp]
    rw [List.getLast?_append_of_ne_nil _ (by decide)]
    decide
  have h5 := List.getLast?_eq_getLast _ hl
  rw [hgl] at h5
  have h6 := (Option.some.injEq .. ▸ h5).symm
  rw [h6]
  decide

/-- The dump output is already stripped. -/
theorem fmDumps_stripped (m : List (String × YVal)) (b : String) :
    pyStrip (fmDumps m b) = fmDumps m b :=
  pyStrip_pyStrip _

/-- Dropping a leading newline before trimming changes nothing. -/
theorem trimChars_cons_nl (l : List Char) :
    trimChars ('\n' :: l) = trimChars l := by
  unfold trimChars
  rw [List.dropWhile_cons, if_pos (by decide)]

/-- Line structure of the dump of a trim-fixed nonempty body. -/
theorem pySplitNL_fmDumps_nonempty (m : List (String × YVal)) (b : String)
    (hb : pyStrip b = b) (hne : b ≠ "") :
    pySplitNL (fmDumps m b)
      = "---" :: ((m.map fun kv => String.mk (dumpLineChars kv.1 kv.2)) ++
          "---" :: "" :: pySplitNL b) := by
  unfold pySplitNL
  rw [fmDumps_data_of_stripped m b hb hne]
  rw [splitNLAux_append_nl "---".data _ [] (by decide)]
  rw [splitNLAux_dumpMeta m ("---".data ++ '\n' :: '\n' :: b.data)]
  rw [splitNLAux_append_nl "---".data _ [] (by decide)]
  rw [show splitNLAux ('\n' :: b.data) [] = [] :: splitNLAux b.data [] from by
    simp [splitNLAux]]
  simp

/-- Line structure of the dump of the empty body. -/
theorem pySplitNL_fmDumps_empty (m : List (String × YVal)) :
    pySplitNL (fmDumps m "")
      = "---" :: ((m.map fun kv => String.mk (dumpLineChars kv.1 kv.2)) ++
          ["---"]) := by
  unfold pySplitNL
  rw [fmDumps_data_empty m]
  rw [splitNLAux_append_nl "---".data _ [] (by decide)]
  rw [splitNLAux_dumpMeta m "---".data]
  rw [show splitNLAux "---".data [] = ["---".data] from by decide]
  simp

/-- Joining an empty first chunk prepends a newline to the rest. -/
theorem joinNL_empty_cons (b : String) :
    joinNL ("" :: pySplitNL b) = String.mk ('\n' :: b.data) := by
  unfold joinNL
  obtain ⟨z, zs, hz⟩ : ∃ z zs, pySplitNL b = z :: zs := by
    unfold pySplitNL
    obtain ⟨y, ys, hy⟩ :=
      List.exists_cons_of_ne_nil (splitNLAux_ne_nil b.data [])
    exact ⟨String.mk y, ys.map String.mk, by rw [hy]; rfl⟩
  rw [hz]
  simp only [List.map_cons]
  rw [show joinNLChars ([] :: z.data :: (zs.map String.data))
      = [] ++ '\n' :: joinNLChars (z.data :: zs.map String.data) from rfl]
  have hj : joinNLChars ((pySplitNL b).map String.data) = b.data := by
    have := congrArg String.data (joinNL_pySplitNL b)
    exact this
  rw [hz] at hj
  simp only [List.map_cons] at hj
  rw [hj]
  rfl

/-- Round trip: loading a dump of a duplicate-free mapping over a
trim-fixed body recovers both. -/
theorem fmLoads_fmDumps (m : List (String × YVal)) (b : String)
    (hm : (m.map Prod.fst).Nodup) (hb : pyStrip b = b) :
    fmLoads? (fmDumps m b) = some (m, b) := by
  have hlineok : ∀ x ∈ m.map fun kv => String.mk (dumpLineChars kv.1 kv.2),
      (x == "---") = false := by
    intro x hx
    obtain ⟨kv, _, hkv⟩ := List.mem_map.mp hx
    rw [← hkv, beq_eq_false_iff_ne]
    exact dumpLine_ne_dashes kv.1 kv.2
  have hmapdata : ((m.map fun kv => String.mk (dumpLineChars kv.1 kv.2)).map
      String.data) = m.map fun kv => dumpLineChars kv.1 kv.2 := by
    rw [List.map_map]
    rfl
  by_cases hne : b = ""
  · subst hne
    have hlines := pySplitNL_fmDumps_empty m
    have hpre : ("---\n".data.isPrefixOf (fmDumps m "").data) = true := by
      rw [List.isPrefixOf_iff_prefix, fmDumps_data_empty m]
      exact ⟨dumpMeta m ++ "---".data, by simp⟩
    have hdrop1 : (pySplitNL (fmDumps m "")).drop 1
        = (m.map fun kv => String.mk (dumpLineChars kv.1 kv.2)) ++ "---" :: [] := by
      rw [hlines]
      rfl
    have hfind : ((pySplitNL (fmDumps m "")).drop 1).findIdx?
        (fun line => line == "---")
        = some (m.map fun kv => String.mk (dumpLineChars kv.1 kv.2)).length := by
      rw [hdrop1]
      exact findIdx_dashes _ [] hlineok
    have hparse : parseMetaLines ((((pySplitNL (fmDumps m "")).drop 1).take
        (m.map fun kv => String.mk (dumpLineChars kv.1 kv.2)).length).map
          String.data) []
        = some m := by
      rw [hdrop1, List.take_left, hmapdata,
        parseMetaLines_dump m [] (by simpa using hm)]
      simp
    have hbody : pyStrip (joinNL ((pySplitNL (fmDumps m "")).drop
        ((m.map fun kv => String.mk (dumpLineChars kv.1 kv.2)).length + 2))) = "" := by
      rw [hlines]
      rw [show ("---" :: ((m.map fun kv => String.mk (dumpLineChars kv.1 kv.2)) ++
          ["---"])).drop
            ((m.map fun kv => String.mk (dumpLineChars kv.1 kv.2)).length + 2)
          = ((m.map fun kv => String.mk (dumpLineChars kv.1 kv.2)) ++
            "---" :: []).drop
              ((m.map fun kv => String.mk (dumpLineChars kv.1 kv.2)).length + 1) from rfl]
      rw [List.drop_append 1]
      rfl
    simp only [fmLoads?, fmDumps_stripped, hpre, if_true, hfind, hparse, hbody]
  · have hlines := pySplitNL_fmDumps_nonempty m b hb hne
    have hpre : ("---\n".data.isPrefixOf (fmDumps m b).data) = true := by
      rw [List.isPrefixOf_iff_prefix, fmDumps_data_of_stripped m b hb hne]
      exact ⟨dumpMeta m ++ ("---".data ++ '\n' :: '\n' :: b.data), by simp⟩
    have hdrop1 : (pySplitNL (fmDumps m b)).drop 1
        = (m.map fun kv => String.mk (dumpLineChars kv.1 kv.2)) ++
          "---" :: "" :: pySplitNL b := by
      rw [hlines]
      rfl
    have hfind : ((pySplitNL (fmDumps m b)).drop 1).findIdx?
        (fun line => line == "---")
        = some (m.map fun kv => String.mk (dumpLineChars kv.1 kv.2)).length := by
      rw [hdrop1]
      exact findIdx_dashes _ ("" :: pySplitNL b) hlineok
    have hparse : parseMetaLines ((((pySplitNL (fmDumps m b)).drop 1).take
        (m.map fun kv => String.mk (dumpLineChars kv.1 kv.2)).length).map
          String.data) []
        = some m := by
      rw [hdrop1, List.take_left, hmapdata,
        parseMetaLines_dump m [] (by simpa using hm)]
      simp
    have hbody : pyStrip (joinNL ((pySplitNL (fmDumps m b)).drop
        ((m.map fun kv => String.mk (dumpLineChars kv.1 kv.2)).length + 2))) = b := by
      rw [hlines]
      rw [show ("---" :: ((m.map fun kv => String.mk (dumpLineChars kv.1 kv.2)) ++
          "---" :: "" :: pySplitNL b)).drop
            ((m.map fun kv => String.mk (dumpLineChars kv.1 kv.2)).length + 2)
          = ((m.map fun kv => String.mk (dumpLineChars kv.1 kv.2)) ++
            "---" :: "" :: pySplitNL b).drop
              ((m.map fun kv => String.mk (dumpLineChars kv.1 kv.2)).length + 1) from rfl]
      rw [List.drop_append 1]
      rw [show ("---" :: "" :: pySplitNL b).drop 1 = "" :: pySplitNL b from rfl]
      rw [joinNL_empty_cons b]
      rw [show pyStrip (String.mk ('\n' :: b.data))
          = String.mk (trimChars ('\n' :: b.data)) from rfl]
      rw [trimChars_cons_nl]
      rw [show String.mk (trimChars b.data) = pyStrip b from rfl, hb]
    simp only [fmLoads?, fmDumps_stripped, hpre, if_true, hfind, hparse, hbody]

/-- The keys of a successfully loaded mapping are duplicate-free. -/
theorem fmLoads_nodup (c : String) (m : List (String × YVal)) (b : String)
    (h : fmLoads? c = some (m, b)) : (m.map Prod.fst).Nodup := by
  simp only [fmLoads?] at h
  split at h
  · split at h
    · obtain ⟨h1, h2⟩ := Prod.mk.injEq .. ▸ Option.some.inj h
      rw [← h1]
      simp
    · split at h
      · rename_i m2 hp
        obtain ⟨h1, h2⟩ := Prod.mk.injEq .. ▸ Option.some.inj h
        rw [← h1]
        exact parseMetaLines_nodup _ [] m2 (by simp) hp
      · exact Option.noConfusion h
  · obtain ⟨h1, h2⟩ := Prod.mk.injEq .. ▸ Option.some.inj h
    rw [← h1]
    simp

/-- The body of a successfully loaded content is a fixed point of
stripping. -/
theorem fmLoads_body_stripped (c : String) (m : List (String × YVal))
    (b : String) (h : fmLoads? c = some (m, b)) : pyStrip b = b := by
  simp only [fmLoads?] at h
  split at h
  · split at h
    · obtain ⟨h1, h2⟩ := Prod.mk.injEq .. ▸ Option.some.inj h
      rw [← h2]
      exact pyStrip_pyStrip c
    · split at h
      · obtain ⟨h1, h2⟩ := Prod.mk.injEq .. ▸ Option.some.inj h
        rw [← h2]
        exact pyStrip_pyStrip _
      · exact Option.noConfusion h
  · obtain ⟨h1, h2⟩ := Prod.mk.injEq .. ▸ Option.some.inj h
    rw [← h2]
    exact pyStrip_pyStrip c

/-! ## Claim C1 -/

/-- C1 counterexample: the idempotence claim fails on content whose
frontmatter block is malformed YAML. The first application takes the
manual fallback path, keeping the raw tail `Body\n`; reapplying the same
patch takes the library path, which strips the body to `Body`, so the
second output differs from the first. -/
theorem C1_patch_idempotence_counterexample :
    update_frontmatter_metadata
        (update_frontmatter_metadata "---\na: [\n---\nBody\n"
          [("title", YVal.ystr "X")])
        [("title", YVal.ystr "X")]
      ≠ update_frontmatter_metadata "---\na: [\n---\nBody\n"
          [("title", YVal.ystr "X")] := by
  decide

/-- C1 (amended): applying `update_frontmatter_metadata` twice with the
same duplicate-free patch equals applying it once, whenever the
frontmatter parse of the original content does not raise (the library
path is taken). -/
theorem C1_patch_idempotence_amended (c : String)
    (p : List (String × YVal)) (hp : (p.map Prod.fst).Nodup)
    (hc : fmLoads? c ≠ none) :
    update_frontmatter_metadata (update_frontmatter_metadata c p) p
      = update_frontmatter_metadata c p := by
  cases hload : fmLoads? c with
  | none => exact absurd hload hc
  | some mb =>
    obtain ⟨m, b⟩ := mb
    have hm : (m.map Prod.fst).Nodup := fmLoads_nodup c m b hload
    have hb : pyStrip b = b := fmLoads_body_stripped c m b hload
    have h1 : update_frontmatter_metadata c p = fmDumps (mergeMeta m p) b := by
      simp only [update_frontmatter_metadata, hload]
    rw [h1]
    have h2 : fmLoads? (fmDumps (mergeMeta m p) b) = some (mergeMeta m p, b) :=
      fmLoads_fmDumps (mergeMeta m p) b (merge_nodup p m hm) hb
    simp only [update_frontmatter_metadata, h2, merge_idem p m hp]

/-- C1 witness: the amended theorem applied at concrete input. -/
theorem C1_patch_idempotence_amended_witness :
    (([("title", YVal.ystr "X")].map Prod.fst).Nodup ∧
      fmLoads? "hello" ≠ none) ∧
    update_frontmatter_metadata
        (update_frontmatter_metadata "hello" [("title", YVal.ystr "X")])
        [("title", YVal.ystr "X")]
      = update_frontmatter_metadata "hello" [("title", YVal.ystr "X")] :=
  ⟨⟨by decide, by decide⟩,
    C1_patch_idempotence_amended "hello" [("title", YVal.ystr "X")]
      (by decide) (by decide)⟩

/-! ## Claim C9 -/

/-- C9: `extract_frontmatter_metadata` is total by construction (the
modelled parse failure yields a value instead of raising), and it returns
the all-empty record both when the content has no leading `---`-delimited
block and when the block fails to parse. -/
theorem C9_extract_metadata_total :
    (∀ c : String, ("---\n".data.isPrefixOf (pyStrip c).data) = false →
      extract_frontmatter_metadata c = nullFrontmatterRecord) ∧
    (∀ c : String, fmLoads? c = none →
      extract_frontmatter_metadata c = nullFrontmatterRecord) := by
  constructor
  · intro c h
    simp only [extract_frontmatter_metadata, fmLoads?, h, Bool.false_eq_true,
      if_false]
    rfl
  · intro c h
    simp only [extract_frontmatter_metadata, h]

/-- C9 witness: the totality theorem applied at concrete inputs — one
content without a frontmatter block, one with a malformed block. -/
theorem C9_extract_metadata_total_witness :
    (("---\n".data.isPrefixOf (pyStrip "# Heading\nBody text").data) = false ∧
      extract_frontmatter_metadata "# Heading\nBody text"
        = nullFrontmatterRecord) ∧
    (fmLoads? "---\na: [\n---\nBody\n" = none ∧
      extract_frontmatter_metadata "---\na: [\n---\nBody\n"
        = nullFrontmatterRecord) :=
  ⟨⟨by decide, C9_extract_metadata_total.1 "# Heading\nBody text" (by decide)⟩,
   ⟨by decide, C9_extract_metadata_total.2 "---\na: [\n---\nBody\n" (by decide)⟩⟩

/-! ## Claim C3 -/

/-- C3: classifier correctness on the three canonical inputs: the Google
Docs URL classifies as a Google Doc, `confluence:ENG/456` classifies as a
Confluence page and parses to space `ENG`, page id `456` and no page
title, and `notes.md` classifies as a Markdown file, with neither
`is_google_doc` nor `is_confluence_page` holding for it. -/
theorem C3_classifier_canonical :
    classify "https://docs.google.com/document/d/abc123/edit" = DestKind.googleDoc ∧
    classify "confluence:ENG/456" = DestKind.confluencePage ∧
    parse_confluence_destination "confluence:ENG/456" =
      { dtype := some "confluence", space := some "ENG", page_id := some "456",
        page_title := none, url := none } ∧
    classify "notes.md" = DestKind.markdownFile ∧
    is_google_doc "notes.md" = false ∧
    is_confluence_page "notes.md" = false :=
  ⟨by decide, by decide, by decide, by decide, by decide, by decide⟩

/-! ## Claim C8 -/

/-- C8: `generate_batch_id "Software Assurance Maturity Plan"` is the
token `software-assurance-maturity-plan`, which is all lowercase with
hyphen separators, starts with a letter, and differs from the raw title;
the function is deterministic. -/
theorem C8_generate_batch_id_shape :
    generate_batch_id "Software Assurance Maturity Plan"
        = "software-assurance-maturity-plan" ∧
    ((generate_batch_id "Software Assurance Maturity Plan").data.all
        (fun c => c.isLower || c = '-')) = true ∧
    pyIsAlpha ((generate_batch_id "Software Assurance Maturity Plan").data.headD ' ')
        = true ∧
    generate_batch_id "Software Assurance Maturity Plan"
        ≠ "Software Assurance Maturity Plan" ∧
    ∀ t : String, generate_batch_id t = generate_batch_id t :=
  ⟨by decide, by decide, by decide, by decide, fun _ => rfl⟩

/-! ## Claim C2 -/

/-- C2: anchor generation is deterministic and case-preserving, collapses
whitespace runs to single hyphens, percent-encodes the result with hyphen
left unescaped (the colon of `Step 1: Setup` becomes `%3A`), strips
Markdown emphasis/link syntax, and drops a trailing `\x7b#anchor\x7d`
annotation; `Getting Started` and `getting started` generate different
anchors. -/
theorem C2_anchor_generation :
    generate_confluence_anchor "Getting Started" = "Getting-Started" ∧
    generate_confluence_anchor "Getting Started"
        ≠ generate_confluence_anchor "getting started" ∧
    generate_confluence_anchor "Step 1: Setup" = "Step-1%3A-Setup" ∧
    pyContains (generate_confluence_anchor "Step 1: Setup") "%3A" = true ∧
    generate_confluence_anchor "A  B" = generate_confluence_anchor "A B" ∧
    generate_confluence_anchor "**Bold** and *it* [txt](url)"
        = "Bold-and-it-txt" ∧
    anchorForHeading "Intro \x7b#intro\x7d" = "Intro" ∧
    ∀ s : String, generate_confluence_anchor s = generate_confluence_anchor s :=
  ⟨by decide, by decide, by decide, by decide, by decide, by decide,
    by decide, fun _ => rfl⟩

/-! ## Claim C5 -/

set_option maxRecDepth 20000 in
/-- C5: converting the Markdown `> A quote` produces the structured
note-type macro wrapping the paragraph `A quote` and no raw
`<blockquote>` tag remains (for every generated macro id); in general the
blockquote pass rewrites every well-formed `<blockquote>` element into the
note macro of its content. -/
theorem C5_blockquote_note :
    (∀ uuid : String, markdown_to_confluence_storage uuid "> A quote" =
      "<ac:structured-macro ac:name=\"note\">\n  <ac:rich-text-body>\n    <p>A quote</p>\n  </ac:rich-text-body>\n</ac:structured-macro>") ∧
    (∀ uuid : String,
      pyContains (markdown_to_confluence_storage uuid "> A quote")
        "<blockquote>" = false) ∧
    (∀ inner : List Char, containsSubChars "</blockquote>".data inner = false →
      runSub tryBlockquote
        ("<blockquote>".data ++ inner ++ "</blockquote>".data)
        = noteMacroOf inner) := by
  have h1 : ∀ uuid : String, markdown_to_confluence_storage uuid "> A quote" =
      "<ac:structured-macro ac:name=\"note\">\n  <ac:rich-text-body>\n    <p>A quote</p>\n  </ac:rich-text-body>\n</ac:structured-macro>" := by
    intro uuid
    simp only [markdown_to_confluence_storage]
    rw [admonition_pass_id uuid
      (runSub trySpan (runSub tryCodehilite
        (runSub (tryAnchorLink (buildAnchorMap "> A quote"))
          (runSub tryHeading (markdown_markdown "> A quote").data))))
      (by decide)]
    decide
  refine ⟨h1, fun uuid => by rw [h1 uuid]; decide, ?_⟩
  intro inner hni
  apply runSub_single
  · simp
  · unfold tryBlockquote
    have hpre : "<blockquote>".data.isPrefixOf
        ("<blockquote>".data ++ inner ++ "</blockquote>".data) = true := by
      rw [List.isPrefixOf_iff_prefix, List.append_assoc]
      exact List.prefix_append _ _
    rw [if_pos hpre]
    have hdrop : ("<blockquote>".data ++ inner ++ "</blockquote>".data).drop 12
        = inner ++ ("</blockquote>".data ++ []) := by
      rw [List.append_assoc]
      have h12 : (12 : Nat) = "<blockquote>".data.length := by decide
      rw [h12, List.drop_left, List.append_nil]
    rw [hdrop, splitAtFirst_append (by decide) (by decide) inner hni]
  · rfl

/-- Witness for C5: the general blockquote-rewrite conjunct applied at a
concrete content, with the concrete conversions evaluated. -/
theorem C5_blockquote_note_witness :
    runSub tryBlockquote
      ("<blockquote>".data ++ "\n<p>Hi</p>\n".data ++ "</blockquote>".data)
      = noteMacroOf "\n<p>Hi</p>\n".data :=
  C5_blockquote_note.2.2 "\n<p>Hi</p>\n".data (by decide)

/-! ## Claim C6 -/

set_option maxRecDepth 20000 in
/-- C6: the final link pass rewrites every well-formed `<a href=...>`
element according to the three-way split of `convert_link` — `#` targets
stay same-page anchors, `http(s)`/`mailto` targets stay plain external
links, and every other target becomes a structured internal-link element
carrying the target as a page-title reference; a concrete string holding
one link of each kind is rewritten accordingly. -/
theorem C6_link_classification :
    (∀ href text : String, href.data ≠ [] → '"' ∉ href.data →
      '\n' ∉ text.data → containsSubChars "</a>".data text.data = false →
      runSub tryConvertLink
        ("<a href=\"" ++ href ++ "\">" ++ text ++ "</a>").data
        = (convert_link href text).data) ∧
    runSub tryConvertLink
      ("<a href=\"#sec\">s</a> <a href=\"https://x.y\">e</a> <a href=\"mailto:a@b.c\">m</a> <a href=\"Other Page\">i</a>").data
      = ("<a href=\"#sec\">s</a> <a href=\"https://x.y\">e</a> <a href=\"mailto:a@b.c\">m</a> <ac:link><ri:page ri:content-title=\"Other Page\"/><ac:link-body>i</ac:link-body></ac:link>").data := by
  constructor
  · intro href text hne hq hn hnc
    have hdata : ("<a href=\"" ++ href ++ "\">" ++ text ++ "</a>").data
        = "<a href=\"".data ++
          (href.data ++ '"' :: '>' :: (text.data ++ "</a>".data)) := by
      simp [String.data_append]
    rw [hdata]
    apply runSub_single
    · simp
    · simp only [tryConvertLink]
      have hlit : "<a href=\"".data.isPrefixOf ("<a href=\"".data ++
          (href.data ++ '"' :: '>' :: (text.data ++ "</a>".data))) = true := by
        rw [List.isPrefixOf_iff_prefix]
        exact List.prefix_append _ _
      rw [if_pos hlit]
      have h9 : ("<a href=\"".data ++
          (href.data ++ '"' :: '>' :: (text.data ++ "</a>".data))).drop 9
          = href.data ++ '"' :: '>' :: (text.data ++ "</a>".data) := by
        have h9l : (9 : Nat) = "<a href=\"".data.length := by decide
        rw [h9l, List.drop_left]
      rw [h9]
      have htw : (href.data ++ '"' :: '>' :: (text.data ++ "</a>".data)).takeWhile
          (fun c => c ≠ '"') = href.data := by
        refine takeWhile_append_stop (by simp) href.data _ ?_
        intro x hx
        simp only [ne_eq, decide_eq_true_eq]
        intro hxq
        exact hq (hxq ▸ hx)
      rw [htw]
      have hemp : href.data.isEmpty = false := by
        cases hd : href.data with
        | nil => exact absurd hd hne
        | cons a as => rfl
      rw [hemp]
      simp only [Bool.false_eq_true, if_false]
      have hdl : (href.data ++ '"' :: '>' :: (text.data ++ "</a>".data)).drop
          href.data.length = '"' :: '>' :: (text.data ++ "</a>".data) :=
        List.drop_left _ _
      rw [hdl]
      have hq2 : "\">".data.isPrefixOf ('"' :: '>' :: (text.data ++ "</a>".data))
          = true := by
        simp [List.isPrefixOf]
      rw [if_pos hq2]
      have hd2 : (href.data ++ '"' :: '>' :: (text.data ++ "</a>".data)).drop
          (href.data.length + 2) = text.data ++ "</a>".data := by
        have hsh : href.data ++ '"' :: '>' :: (text.data ++ "</a>".data)
            = (href.data ++ ['"', '>']) ++ (text.data ++ "</a>".data) := by
          simp
        rw [hsh]
        have hlen2 : href.data.length + 2 = (href.data ++ ['"', '>']).length := by
          simp
        rw [hlen2, List.drop_left]
      rw [hd2]
      have hsp : splitAtFirst "</a>".data (text.data ++ "</a>".data)
          = some (text.data, []) := by
        have : text.data ++ "</a>".data = text.data ++ ("</a>".data ++ []) := by
          simp
        rw [this]
        exact splitAtFirst_append (by decide) (by decide) text.data hnc
      rw [hsp]
      have hnl : text.data.contains '\n' = false := by
        rw [Bool.eq_false_iff]
        intro hcon
        exact hn (List.elem_iff.mp hcon)
      simp only [hnl, Bool.false_eq_true, if_false]
    · rfl
  · decide

/-- Witness for C6: the general link-rewrite conjunct applied at a
concrete internal-page target, with every hypothesis discharged by
evaluation. -/
theorem C6_link_classification_witness :
    runSub tryConvertLink
      ("<a href=\"" ++ "Other Page" ++ "\">" ++ "go" ++ "</a>").data
      = (convert_link "Other Page" "go").data :=
  C6_link_classification.1 "Other Page" "go" (by decide) (by decide)
    (by decide) (by decide)

/-! ## Claim C7 -/

/-- Counterexample to C7 as stated: on a two-element document the section
text returned is `Hello`, not the exact between-content `Hello\n` (the
code strips surrounding whitespace); and on a document whose matched H1
is immediately followed by another H1, the code returns `B\nC` — the text
of the following H1 and everything after it — where the claimed
between-content is empty, because the boundary search only accepts an H1
whose start index strictly exceeds the matched heading's end index. -/
theorem C7_section_spec_counterexample :
    (find_heading_section_in_gdoc
        ⟨[⟨0, 6, some ⟨some "HEADING_1", [ParaElem.textRun "Title\n"]⟩⟩,
          ⟨6, 12, some ⟨some "NORMAL_TEXT", [ParaElem.textRun "Hello\n"]⟩⟩]⟩
        "Title" = "Hello" ∧
      specSectionClaim
        ⟨[⟨0, 6, some ⟨some "HEADING_1", [ParaElem.textRun "Title\n"]⟩⟩,
          ⟨6, 12, some ⟨some "NORMAL_TEXT", [ParaElem.textRun "Hello\n"]⟩⟩]⟩
        "Title" = "Hello\n") ∧
    (find_heading_section_in_gdoc
        ⟨[⟨0, 3, some ⟨some "HEADING_1", [ParaElem.textRun "A\n"]⟩⟩,
          ⟨3, 6, some ⟨some "HEADING_1", [ParaElem.textRun "B\n"]⟩⟩,
          ⟨6, 9, some ⟨some "NORMAL_TEXT", [ParaElem.textRun "C\n"]⟩⟩]⟩
        "A" = "B\nC" ∧
      specSectionClaim
        ⟨[⟨0, 3, some ⟨some "HEADING_1", [ParaElem.textRun "A\n"]⟩⟩,
          ⟨3, 6, some ⟨some "HEADING_1", [ParaElem.textRun "B\n"]⟩⟩,
          ⟨6, 9, some ⟨some "NORMAL_TEXT", [ParaElem.textRun "C\n"]⟩⟩]⟩
        "A" = "") :=
  ⟨⟨by decide, by decide⟩, ⟨by decide, by decide⟩⟩

/-- C7 (amended): the section finder matches the file's heading against
the document's HEADING_1 paragraphs by case-insensitive containment; the
returned text is the concatenated text of the paragraph elements lying
wholly between the matched heading's end index and the first H1 start
index strictly beyond it (or the last element's end index), trimmed of
surrounding whitespace; when no H1 matches it returns the empty string,
and the batch diff then reports the file as missing its section. -/
theorem C7_section_amended :
    (∀ (doc : GDoc) (title : String),
      find_heading_section_in_gdoc doc title = specSectionAmended doc title) ∧
    (∀ (doc : GDoc) (title : String),
      (∀ e ∈ doc.content, (isH1 e &&
        pyContains (pyLower (elemText e)) (pyLower title)) = false) →
      find_heading_section_in_gdoc doc title = "") ∧
    (∀ c : String, batchFileReport c "" = "MISSING") := by
  have hmain : ∀ (doc : GDoc) (title : String),
      find_heading_section_in_gdoc doc title = specSectionAmended doc title := by
    intro doc title
    unfold find_heading_section_in_gdoc specSectionAmended
    rw [findH1Loop_eq]
    cases hf : doc.content.find? (fun e => isH1 e &&
        pyContains (pyLower (elemText e)) (pyLower title)) with
    | none => rfl
    | some eMatch =>
      simp only [Option.map_some']
      rw [findEndLoop_eq, collectLoop_eq]
      cases hf2 : doc.content.find?
          (fun e => decide (eMatch.endIndex < e.startIndex) && isH1 e) with
      | none => rfl
      | some e2 => rfl
  refine ⟨hmain, ?_, fun c => rfl⟩
  intro doc title h
  unfold find_heading_section_in_gdoc
  rw [findH1Loop_eq]
  rw [List.find?_eq_none.mpr (fun e he => by simp [h e he])]
  rfl

/-- Witness for C7: the no-match conjunct applied to a concrete document
with no matching H1. -/
theorem C7_section_amended_witness :
    find_heading_section_in_gdoc
      ⟨[⟨0, 3, some ⟨some "NORMAL_TEXT", [ParaElem.textRun "x\n"]⟩⟩]⟩ "Q"
      = "" :=
  C7_section_amended.2.1
    ⟨[⟨0, 3, some ⟨some "NORMAL_TEXT", [ParaElem.textRun "x\n"]⟩⟩]⟩ "Q"
    (by decide)

/-! ## Claim C4 -/

/-- C4: `strip_frontmatter_for_remote_sync` returns content with no
frontmatter block unchanged (the first line is not exactly `---`, or no
later line whose stripped form is `---` closes a block), and maps the
specific input `"---\nfoo: 1\n---\n\nBODY"` to exactly `"BODY"`. -/
theorem C4_strip_frontmatter_round_trip :
    (∀ c : String,
      ((pySplitNL c).head?.getD "" ≠ "---" ∨
        ∀ l ∈ (pySplitNL c).drop 1, pyStrip l ≠ "---") →
      strip_frontmatter_for_remote_sync c = c) ∧
    strip_frontmatter_for_remote_sync "---\nfoo: 1\n---\n\nBODY" = "BODY" := by
  constructor
  · intro c h
    unfold strip_frontmatter_for_remote_sync
    split
    · split
      · split
        · rename_i hpref hcond xdisc j hfind
          exfalso
          rcases h with h | h
          · simp only [Bool.and_eq_true, beq_iff_eq] at hcond
            exact h hcond.2
          · have : ((pySplitNL c).drop 1).findIdx?
                (fun line => pyStrip line == "---") = none := by
              rw [List.findIdx?_eq_none_iff]
              intro x hx
              simp only [beq_eq_false_iff_ne, ne_eq]
              exact h x hx
            rw [this] at hfind
            exact Option.noConfusion hfind
        · rfl
      · rfl
    · rfl
  · decide

/-- Witness for C4: a content string without frontmatter is returned
unchanged. -/
theorem C4_strip_frontmatter_round_trip_witness :
    strip_frontmatter_for_remote_sync "hello" = "hello" :=
  C4_strip_frontmatter_round_trip.1 "hello" (Or.inl (by decide))

/-! ## Claim C10 -/

/-- C10: whenever `strip_frontmatter_for_remote_sync` actually removes a
frontmatter block, the returned body is additionally stripped of leading
and trailing whitespace (it is a fixed point of trimming), and on a
concrete input the result differs from the raw text following the block. -/
theorem C10_strip_frontmatter_trims :
    (∀ c : String,
      (pySplitNL c).head?.getD "" = "---" →
      (∃ l ∈ (pySplitNL c).drop 1, pyStrip l = "---") →
      trimChars (strip_frontmatter_for_remote_sync c).data
        = (strip_frontmatter_for_remote_sync c).data) ∧
    strip_frontmatter_for_remote_sync "---\na: 1\n---\n\nBODY\n" = "BODY" ∧
    joinNL ((pySplitNL "---\na: 1\n---\n\nBODY\n").drop 3) = "\nBODY\n" ∧
    ("BODY" : String) ≠ "\nBODY\n" := by
  refine ⟨?_, by decide, by decide, by decide⟩
  intro c hfirst hclosing
  have h1 : "---".data.isPrefixOf c.data = true :=
    firstLine_dashes_isPrefixOf hfirst
  have hlen : (pySplitNL c).length > 1 := by
    obtain ⟨l, hl, _⟩ := hclosing
    have hne : (pySplitNL c).drop 1 ≠ [] := List.ne_nil_of_mem hl
    have hpos := List.length_pos.mpr hne
    rw [List.length_drop] at hpos
    omega
  have hfind : ((pySplitNL c).drop 1).findIdx?
      (fun line => pyStrip line == "---") ≠ none := by
    rw [Ne, List.findIdx?_eq_none_iff]
    intro hall
    obtain ⟨l, hl, he⟩ := hclosing
    have := hall l hl
    rw [beq_eq_false_iff_ne] at this
    exact this he
  obtain ⟨j, hj⟩ := Option.ne_none_iff_exists'.mp hfind
  have hcond : (decide ((pySplitNL c).length > 1) &&
      ((pySplitNL c).head?.getD "" == "---")) = true := by
    simp only [Bool.and_eq_true, decide_eq_true_eq, beq_iff_eq]
    exact ⟨hlen, hfirst⟩
  unfold strip_frontmatter_for_remote_sync
  rw [if_pos h1, if_pos hcond, hj]
  exact trimChars_trimChars _

/-- Witness for C10: the hypotheses hold at the concrete input used in
the theorem, and the conclusion evaluates there. -/
theorem C10_strip_frontmatter_trims_witness :
    trimChars (strip_frontmatter_for_remote_sync "---\na: 1\n---\n\nBODY\n").data
      = (strip_frontmatter_for_remote_sync "---\na: 1\n---\n\nBODY\n").data :=
  C10_strip_frontmatter_trims.1 "---\na: 1\n---\n\nBODY\n" (by decide)
    ⟨"---", by decide, by decide⟩

end Mdsync
